import Mathlib

/-!
Verification of the apolon ORM core (change tracking, unit-of-work flush,
condition/query SQL lowering) against its natural-language specification.

The Go source is shallowly embedded: dynamic `any` values become the `Value`
inductive, reflection-derived struct metadata becomes `ModelInfo` (the spec's
external column descriptor), entities are field-value vectors, the change
tracker is an association list keyed by the same strings Go's `makeKey`
produces, and the database connection is an explicit state (`DbState`) with
a committed effect list and a pending-transaction effect list driven by an
oracle (`ExecOracle`) that decides statement failure, affected-row counts and
store-generated keys.
-/

namespace Apolon

/-- Dynamic field values (Go `any` restricted to the scalar kinds the ORM
maps); `DeepEqual` becomes decidable equality. -/
inductive Value where
  | int (n : Int)
  | str (s : String)
  | bool (b : Bool)
  | null
deriving DecidableEq, Repr

/-- Go `reflect.Value.IsZero` on the supported kinds (`isZeroValue` in the
save pipeline). -/
def isZeroValue : Value → Bool
  | .int n => n = 0
  | .str s => s = ""
  | .bool b => b = false
  | .null => true

/-- Go `fmt.Sprintf("%v", v)` on the supported kinds, used for identity-map
keys. -/
def showValue : Value → String
  | .int n => toString n
  | .str s => s
  | .bool b => toString b
  | .null => "<nil>"

/-- Condition tree of `apolon-shared/condition.go`: one constructor per
concrete `Condition` implementation. -/
inductive Condition where
  | simple (column op : String) (value : Value)
  | inCond (column : String) (values : List Value)
  | between (column : String) (low high : Value)
  | nullCond (column : String) (isNull : Bool)
  | like (column : String) (pattern : String)
  | andCond (conditions : List Condition)
  | orCond (conditions : List Condition)
  | notCond (condition : Condition)

/-- `$%d` placeholder text. -/
def ph (idx : Nat) : String := "$" ++ toString idx

mutual

/-- `Condition.ToSQL(paramIndex) (sql, args, nextIndex)` from
`apolon-shared/condition.go`, one case per implementation. -/
def Condition.toSQL : Condition → Nat → String × List Value × Nat
  | .simple column op value, idx =>
      ⟨column ++ " " ++ op ++ " " ++ ph idx, [value], idx + 1⟩
  | .inCond column values, idx =>
      if values.length = 0 then ⟨"FALSE", [], idx⟩
      else
        let placeholders := (List.range values.length).map fun i => ph (idx + i)
        ⟨column ++ " IN (" ++ String.intercalate ", " placeholders ++ ")",
         values, idx + values.length⟩
  | .between column low high, idx =>
      ⟨column ++ " BETWEEN " ++ ph idx ++ " AND " ++ ph (idx + 1),
       [low, high], idx + 2⟩
  | .nullCond column isNull, idx =>
      if isNull then ⟨column ++ " IS NULL", [], idx⟩
      else ⟨column ++ " IS NOT NULL", [], idx⟩
  | .like column pattern, idx =>
      ⟨column ++ " LIKE " ++ ph idx, [.str pattern], idx + 1⟩
  | .andCond conditions, idx =>
      if conditions.length = 0 then ⟨"TRUE", [], idx⟩
      else
        let r := Condition.toSQLList conditions idx
        ⟨"(" ++ String.intercalate " AND " r.1 ++ ")", r.2.1, r.2.2⟩
  | .orCond conditions, idx =>
      if conditions.length = 0 then ⟨"FALSE", [], idx⟩
      else
        let r := Condition.toSQLList conditions idx
        ⟨"(" ++ String.intercalate " OR " r.1 ++ ")", r.2.1, r.2.2⟩
  | .notCond condition, idx =>
      let r := condition.toSQL idx
      ⟨"NOT (" ++ r.1 ++ ")", r.2.1, r.2.2⟩

/-- The loop shared by `AndCondition.ToSQL` and `OrCondition.ToSQL`:
collect child fragments, append child args, thread the parameter index
left-to-right. -/
def Condition.toSQLList : List Condition → Nat → List String × List Value × Nat
  | [], idx => ⟨[], [], idx⟩
  | c :: cs, idx =>
      let r := c.toSQL idx
      let rest := Condition.toSQLList cs r.2.2
      ⟨r.1 :: rest.1, r.2.1 ++ rest.2.1, rest.2.2⟩

end

mutual

/-- Spec-side observation function: the parameter indices that appear in the
fragment text `ToSQL(idx)` produces, in textual (left-to-right) order.  Each
case reads off the placeholders of the corresponding format string in
`condition.go`. -/
def Condition.phIndices : Condition → Nat → List Nat
  | .simple _ _ _, idx => [idx]
  | .inCond _ values, idx =>
      if values.length = 0 then []
      else (List.range values.length).map fun i => idx + i
  | .between _ _ _, idx => [idx, idx + 1]
  | .nullCond _ _, _ => []
  | .like _ _, idx => [idx]
  | .andCond conditions, idx =>
      if conditions.length = 0 then [] else Condition.phIndicesList conditions idx
  | .orCond conditions, idx =>
      if conditions.length = 0 then [] else Condition.phIndicesList conditions idx
  | .notCond condition, idx => condition.phIndices idx

/-- Textual placeholder order of a child list: each child's placeholders in
order, children left-to-right, threading the index exactly as `toSQLList`. -/
def Condition.phIndicesList : List Condition → Nat → List Nat
  | [], _ => []
  | c :: cs, idx =>
      c.phIndices idx ++ Condition.phIndicesList cs (c.toSQL idx).2.2

end

mutual

/-- Threading invariant: lowering a node at `idx` returns
`nextIndex = idx + (number of returned arguments)`. -/
theorem toSQL_next (c : Condition) (idx : Nat) :
    (c.toSQL idx).2.2 = idx + (c.toSQL idx).2.1.length := by
  cases c with
  | simple column op value => simp [Condition.toSQL]
  | inCond column values =>
      by_cases h : values.length = 0 <;> simp [Condition.toSQL, h]
  | between column low high => simp [Condition.toSQL]
  | nullCond column isNull =>
      by_cases h : isNull <;> simp [Condition.toSQL, h]
  | like column pattern => simp [Condition.toSQL]
  | andCond conditions =>
      by_cases h : conditions.length = 0 <;>
        simp [Condition.toSQL, h, toSQLList_next conditions idx]
  | orCond conditions =>
      by_cases h : conditions.length = 0 <;>
        simp [Condition.toSQL, h, toSQLList_next conditions idx]
  | notCond condition =>
      simpa [Condition.toSQL] using toSQL_next condition idx

/-- Threading invariant for child lists. -/
theorem toSQLList_next (cs : List Condition) (idx : Nat) :
    (Condition.toSQLList cs idx).2.2 = idx + (Condition.toSQLList cs idx).2.1.length := by
  cases cs with
  | nil => simp [Condition.toSQLList]
  | cons c cs =>
      have h1 := toSQL_next c idx
      have h2 := toSQLList_next cs (c.toSQL idx).2.2
      simp only [Condition.toSQLList, List.length_append]
      omega

end

mutual

/-- The placeholders a node emits are exactly the consecutive indices
`idx, idx+1, ...`, one per returned argument, in textual order. -/
theorem toSQL_phIndices (c : Condition) (idx : Nat) :
    c.phIndices idx = List.range' idx (c.toSQL idx).2.1.length := by
  cases c with
  | simple column op value => simp [Condition.toSQL, Condition.phIndices]
  | inCond column values =>
      by_cases h : values.length = 0 <;>
        simp [Condition.toSQL, Condition.phIndices, h, List.range'_eq_map_range]
  | between column low high =>
      simp [Condition.toSQL, Condition.phIndices, List.range']
  | nullCond column isNull =>
      by_cases h : isNull <;> simp [Condition.toSQL, Condition.phIndices, h]
  | like column pattern => simp [Condition.toSQL, Condition.phIndices]
  | andCond conditions =>
      by_cases h : conditions.length = 0 <;>
        simp [Condition.toSQL, Condition.phIndices, h,
          toSQLList_phIndices conditions idx]
  | orCond conditions =>
      by_cases h : conditions.length = 0 <;>
        simp [Condition.toSQL, Condition.phIndices, h,
          toSQLList_phIndices conditions idx]
  | notCond condition =>
      simpa [Condition.toSQL, Condition.phIndices] using
        toSQL_phIndices condition idx

/-- Placeholder layout of a child list: consecutive indices spanning the
concatenated argument lists. -/
theorem toSQLList_phIndices (cs : List Condition) (idx : Nat) :
    Condition.phIndicesList cs idx =
      List.range' idx (Condition.toSQLList cs idx).2.1.length := by
  cases cs with
  | nil => simp [Condition.toSQLList, Condition.phIndicesList]
  | cons c cs =>
      have h1 := toSQL_phIndices c idx
      have h2 := toSQLList_phIndices cs (c.toSQL idx).2.2
      have h3 := toSQL_next c idx
      rw [h3] at h2
      simp only [Condition.toSQLList, Condition.phIndicesList, List.length_append,
        h1, h3, h2]
      rw [List.range'_append_1, Nat.add_comm]

end

mutual

/-- Number of leaf predicate nodes of a condition tree. -/
def Condition.leafCount : Condition → Nat
  | .simple _ _ _ => 1
  | .inCond _ _ => 1
  | .between _ _ _ => 1
  | .nullCond _ _ => 1
  | .like _ _ => 1
  | .andCond conditions => Condition.leafCountList conditions
  | .orCond conditions => Condition.leafCountList conditions
  | .notCond condition => condition.leafCount

/-- Sum of leaf counts over a child list. -/
def Condition.leafCountList : List Condition → Nat
  | [] => 0
  | c :: cs => c.leafCount + Condition.leafCountList cs

end

mutual

/-- Number of nullness (`IS [NOT] NULL`) leaves of a condition tree. -/
def Condition.nullLeafCount : Condition → Nat
  | .simple _ _ _ => 0
  | .inCond _ _ => 0
  | .between _ _ _ => 0
  | .nullCond _ _ => 1
  | .like _ _ => 0
  | .andCond conditions => Condition.nullLeafCountList conditions
  | .orCond conditions => Condition.nullLeafCountList conditions
  | .notCond condition => condition.nullLeafCount

/-- Sum of nullness-leaf counts over a child list. -/
def Condition.nullLeafCountList : List Condition → Nat
  | [] => 0
  | c :: cs => c.nullLeafCount + Condition.nullLeafCountList cs

end

mutual

/-- True when every leaf is a one-placeholder comparison/pattern leaf or a
zero-placeholder nullness leaf (no `BETWEEN`, no `IN`). -/
def Condition.unitLeavesOnly : Condition → Bool
  | .simple _ _ _ => true
  | .inCond _ _ => false
  | .between _ _ _ => false
  | .nullCond _ _ => true
  | .like _ _ => true
  | .andCond conditions => Condition.unitLeavesOnlyList conditions
  | .orCond conditions => Condition.unitLeavesOnlyList conditions
  | .notCond condition => condition.unitLeavesOnly

/-- `unitLeavesOnly` over a child list. -/
def Condition.unitLeavesOnlyList : List Condition → Bool
  | [] => true
  | c :: cs => c.unitLeavesOnly && Condition.unitLeavesOnlyList cs

end

mutual

/-- For trees without `BETWEEN`/`IN` leaves, the argument count is the leaf
count minus the nullness-leaf count. -/
theorem toSQL_args_of_unitLeaves (c : Condition) (idx : Nat)
    (h : c.unitLeavesOnly = true) :
    (c.toSQL idx).2.1.length = c.leafCount - c.nullLeafCount := by
  cases c with
  | simple column op value =>
      simp [Condition.toSQL, Condition.leafCount, Condition.nullLeafCount]
  | inCond column values => simp [Condition.unitLeavesOnly] at h
  | between column low high => simp [Condition.unitLeavesOnly] at h
  | nullCond column isNull =>
      by_cases hn : isNull <;>
        simp [Condition.toSQL, Condition.leafCount, Condition.nullLeafCount, hn]
  | like column pattern =>
      simp [Condition.toSQL, Condition.leafCount, Condition.nullLeafCount]
  | andCond conditions =>
      by_cases h0 : conditions.length = 0
      · rw [List.length_eq_zero] at h0
        subst h0
        simp [Condition.toSQL, Condition.leafCount, Condition.nullLeafCount,
          Condition.leafCountList, Condition.nullLeafCountList]
      · simp only [Condition.unitLeavesOnly] at h
        simp [Condition.toSQL, Condition.leafCount, Condition.nullLeafCount, h0,
          toSQLList_args_of_unitLeaves conditions idx h]
  | orCond conditions =>
      by_cases h0 : conditions.length = 0
      · rw [List.length_eq_zero] at h0
        subst h0
        simp [Condition.toSQL, Condition.leafCount, Condition.nullLeafCount,
          Condition.leafCountList, Condition.nullLeafCountList]
      · simp only [Condition.unitLeavesOnly] at h
        simp [Condition.toSQL, Condition.leafCount, Condition.nullLeafCount, h0,
          toSQLList_args_of_unitLeaves conditions idx h]
  | notCond condition =>
      simp only [Condition.unitLeavesOnly] at h
      simpa [Condition.toSQL, Condition.leafCount, Condition.nullLeafCount] using
        toSQL_args_of_unitLeaves condition idx h

/-- List version of `toSQL_args_of_unitLeaves`, with the extra fact that every
nullness-leaf count is bounded by the leaf count (so the subtractions add). -/
theorem toSQLList_args_of_unitLeaves (cs : List Condition) (idx : Nat)
    (h : Condition.unitLeavesOnlyList cs = true) :
    (Condition.toSQLList cs idx).2.1.length =
      Condition.leafCountList cs - Condition.nullLeafCountList cs := by
  cases cs with
  | nil =>
      simp [Condition.toSQLList, Condition.leafCountList, Condition.nullLeafCountList]
  | cons c cs =>
      simp only [Condition.unitLeavesOnlyList, Bool.and_eq_true] at h
      have h1 := toSQL_args_of_unitLeaves c idx h.1
      have h2 := toSQLList_args_of_unitLeaves cs (c.toSQL idx).2.2 h.2
      have hb1 := nullLeafCount_le c h.1
      have hb2 := nullLeafCountList_le cs h.2
      simp only [Condition.toSQLList, List.length_append, Condition.leafCountList,
        Condition.nullLeafCountList, h1, h2]
      omega

/-- On `BETWEEN`/`IN`-free trees the nullness-leaf count never exceeds the
leaf count. -/
theorem nullLeafCount_le (c : Condition) (h : c.unitLeavesOnly = true) :
    c.nullLeafCount ≤ c.leafCount := by
  cases c with
  | simple column op value => simp [Condition.leafCount, Condition.nullLeafCount]
  | inCond column values => simp [Condition.unitLeavesOnly] at h
  | between column low high => simp [Condition.unitLeavesOnly] at h
  | nullCond column isNull => simp [Condition.leafCount, Condition.nullLeafCount]
  | like column pattern => simp [Condition.leafCount, Condition.nullLeafCount]
  | andCond conditions =>
      simp only [Condition.unitLeavesOnly] at h
      simpa [Condition.leafCount, Condition.nullLeafCount] using
        nullLeafCountList_le conditions h
  | orCond conditions =>
      simp only [Condition.unitLeavesOnly] at h
      simpa [Condition.leafCount, Condition.nullLeafCount] using
        nullLeafCountList_le conditions h
  | notCond condition =>
      simp only [Condition.unitLeavesOnly] at h
      simpa [Condition.leafCount, Condition.nullLeafCount] using
        nullLeafCount_le condition h

/-- List version of `nullLeafCount_le`. -/
theorem nullLeafCountList_le (cs : List Condition)
    (h : Condition.unitLeavesOnlyList cs = true) :
    Condition.nullLeafCountList cs ≤ Condition.leafCountList cs := by
  cases cs with
  | nil => simp [Condition.leafCountList, Condition.nullLeafCountList]
  | cons c cs =>
      simp only [Condition.unitLeavesOnlyList, Bool.and_eq_true] at h
      have h1 := nullLeafCount_le c h.1
      have h2 := nullLeafCountList_le cs h.2
      simp only [Condition.leafCountList, Condition.nullLeafCountList]
      omega

end

/-- `shared.OrderBy`. -/
structure OrderBySpec where
  column : String
  direction : String
deriving DecidableEq, Repr

/-- `OrderBy.ToSQL`. -/
def OrderBySpec.toSQL (o : OrderBySpec) : String :=
  o.column ++ " " ++ o.direction

/-- The `Query[T]` builder (tracking flag and `apolon` handle kept by the
functions that need them). -/
structure Query where
  table : String
  columns : List String
  conditions : List Condition
  orderBys : List OrderBySpec
  limit : Option Int
  offset : Option Int

/-- `Query.buildSQL`: SELECT projection, WHERE as an implicit AND over the
conditions with the parameter index threaded from 1, ORDER BY, LIMIT and
OFFSET.  The WHERE loop is the same collect/append/thread loop as the
composite conditions, so it is expressed through `Condition.toSQLList`. -/
def Query.buildSQL (q : Query) : String × List Value :=
  let base := "SELECT " ++ String.intercalate ", " q.columns ++ " FROM " ++ q.table
  let wr := Condition.toSQLList q.conditions 1
  let s1 :=
    if q.conditions.length = 0 then base
    else base ++ " WHERE " ++ String.intercalate " AND " wr.1
  let s2 :=
    if q.orderBys.length = 0 then s1
    else s1 ++ " ORDER BY " ++ String.intercalate ", " (q.orderBys.map OrderBySpec.toSQL)
  let s3 := match q.limit with
    | none => s2
    | some n => s2 ++ " LIMIT " ++ toString n
  let s4 := match q.offset with
    | none => s3
    | some n => s3 ++ " OFFSET " ++ toString n
  ⟨s4, wr.2.1⟩

/-- The placeholder indices of the whole WHERE clause of `buildSQL`, in
textual order (children of the implicit AND, left to right). -/
def Query.wherePhIndices (q : Query) : List Nat :=
  Condition.phIndicesList q.conditions 1

/-- C3: lowering threads the parameter index left-to-right so that every node
returns `nextIndex = startIndex + (number of returned arguments)`, and the
placeholders a node emits are exactly the consecutive indices
`startIndex, startIndex+1, ...` in textual order — so sibling conditions never
share an index, indices are strictly increasing across one statement, and the
k-th placeholder matches the k-th returned argument.  The same holds for the
query builder's implicit AND over its `Where` conditions, threaded from 1. -/
theorem flush_condition_param_threading :
    (∀ (c : Condition) (idx : Nat),
        (c.toSQL idx).2.2 = idx + (c.toSQL idx).2.1.length ∧
        c.phIndices idx = List.range' idx (c.toSQL idx).2.1.length) ∧
    (∀ q : Query,
        q.wherePhIndices = List.range' 1 (q.buildSQL.2.length)) := by
  refine ⟨fun c idx => ⟨toSQL_next c idx, toSQL_phIndices c idx⟩, fun q => ?_⟩
  have h := toSQLList_phIndices q.conditions 1
  simpa [Query.wherePhIndices, Query.buildSQL] using h

/-- C5: `IN` with zero values lowers to the literal `FALSE` predicate and
consumes nothing; `IN` with N values returns those N values as arguments and
consumes exactly N placeholders; an `AND` of zero children lowers to `TRUE`
and an `OR` of zero children to `FALSE`, each consuming zero placeholders. -/
theorem lowering_edge_cases :
    (∀ (col : String) (idx : Nat),
        (Condition.inCond col []).toSQL idx = ⟨"FALSE", [], idx⟩) ∧
    (∀ (col : String) (vs : List Value) (idx : Nat),
        ((Condition.inCond col vs).toSQL idx).2.1 = vs ∧
        ((Condition.inCond col vs).toSQL idx).2.2 = idx + vs.length ∧
        ((Condition.inCond col vs).phIndices idx).length = vs.length) ∧
    (∀ idx : Nat,
        (Condition.andCond []).toSQL idx = ⟨"TRUE", [], idx⟩ ∧
        (Condition.andCond []).phIndices idx = [] ∧
        (Condition.orCond []).toSQL idx = ⟨"FALSE", [], idx⟩ ∧
        (Condition.orCond []).phIndices idx = []) := by
  refine ⟨fun col idx => by simp [Condition.toSQL], fun col vs idx => ?_, fun idx => ?_⟩
  · refine ⟨?_, ?_, ?_⟩
    · by_cases h : vs.length = 0
      · rw [List.length_eq_zero] at h
        subst h
        simp [Condition.toSQL]
      · simp [Condition.toSQL, h]
    · by_cases h : vs.length = 0
      · rw [List.length_eq_zero] at h
        subst h
        simp [Condition.toSQL]
      · simp [Condition.toSQL, h]
    · by_cases h : vs.length = 0
      · rw [List.length_eq_zero] at h
        subst h
        simp [Condition.phIndices]
      · simp [Condition.phIndices, h]
  · exact ⟨by simp [Condition.toSQL], by simp [Condition.phIndices],
      by simp [Condition.toSQL], by simp [Condition.phIndices]⟩

/-- C9 counterexample: a composite tree whose single leaf is a `BETWEEN`
consumes two placeholders, not `leafCount - nullLeafCount = 1`. -/
theorem leaf_formula_counterexample :
    ¬ (((Condition.andCond [Condition.between "age" (.int 18) (.int 30)]).toSQL 1).2.1.length =
        (Condition.andCond [Condition.between "age" (.int 18) (.int 30)]).leafCount -
        (Condition.andCond [Condition.between "age" (.int 18) (.int 30)]).nullLeafCount) := by
  simp [Condition.toSQL, Condition.toSQLList, Condition.leafCount,
    Condition.nullLeafCount, Condition.leafCountList, Condition.nullLeafCountList]

/-- C9 (amended): for every condition tree the returned argument count
equals the number of placeholders consumed (`nextIndex - startIndex`); and
for trees whose leaves are all single-placeholder comparison/pattern leaves
or nullness leaves (no `BETWEEN`/`IN`), the number of placeholders consumed
equals the leaf count minus the nullness-leaf count. -/
theorem leaf_placeholder_accounting :
    (∀ (c : Condition) (idx : Nat),
        (c.toSQL idx).2.1.length = (c.toSQL idx).2.2 - idx) ∧
    (∀ (c : Condition) (idx : Nat), c.unitLeavesOnly = true →
        (c.toSQL idx).2.2 - idx = c.leafCount - c.nullLeafCount) := by
  constructor
  · intro c idx
    have h2 := toSQL_next c idx
    omega
  · intro c idx h
    have h1 := toSQL_args_of_unitLeaves c idx h
    have h2 := toSQL_next c idx
    omega

/-- Witness for `leaf_placeholder_accounting` at a concrete tree. -/
theorem leaf_placeholder_accounting_instance :
    (Condition.orCond [Condition.simple "age" ">" (.int 18),
        Condition.nullCond "name" true]).unitLeavesOnly = true ∧
    ((Condition.orCond [Condition.simple "age" ">" (.int 18),
        Condition.nullCond "name" true]).toSQL 1).2.2 - 1 =
      (Condition.orCond [Condition.simple "age" ">" (.int 18),
        Condition.nullCond "name" true]).leafCount -
      (Condition.orCond [Condition.simple "age" ">" (.int 18),
        Condition.nullCond "name" true]).nullLeafCount :=
  ⟨by decide, leaf_placeholder_accounting.2
      (Condition.orCond [Condition.simple "age" ">" (.int 18),
        Condition.nullCond "name" true]) 1 (by decide)⟩

/-- One struct field's reflection-derived metadata: Go field name plus the
column name taken from the `apolon` tag (or the lowercased field name). -/
structure FieldDef where
  name : String
  column : String
deriving DecidableEq, Repr

/-- Reflection-derived shape of an entity struct (the spec's external column
descriptor): type name, `ParseModel` table and column list, and the
primary-key field found by `captureMetadata` (tagged `pk`, else `ID`;
`pkField = ""` when neither exists).  `pkColumn` is `getPKColumnName`'s
result for `pkField`. -/
structure ModelInfo where
  typeName : String
  table : String
  fields : List FieldDef
  pkField : String
  pkColumn : String
deriving DecidableEq, Repr

/-- An entity instance: its address (Go pointer identity), shape and current
field values (parallel to `model.fields`). -/
structure Entity where
  addr : Nat
  model : ModelInfo
  vals : List Value
deriving DecidableEq, Repr

/-- The `fieldName value` pairs of an entity, in struct order. -/
def Entity.namedVals (e : Entity) : List (String × Value) :=
  (e.model.fields.map FieldDef.name).zip e.vals

/-- Association-list lookup (Go map read, first match). -/
def alookup (k : String) : List (String × Value) → Option Value
  | [] => none
  | (k', v) :: rest => if k' = k then some v else alookup k rest

/-- `reflect.FieldByName(...).Interface()` for a field name. -/
def Entity.getField (e : Entity) (name : String) : Option Value :=
  alookup name e.namedVals

/-- Writing a field through reflection (`setPKValue`, or the caller mutating
a struct field): replaces the value of the field(s) with that name. -/
def Entity.setField (e : Entity) (name : String) (v : Value) : Entity :=
  ⟨e.addr, e.model,
    (e.model.fields.zip e.vals).map fun p => if p.1.name = name then v else p.2⟩

/-- `shared.EntityState`. -/
inductive EntityState where
  | detached
  | unchanged
  | added
  | modified
  | deleted
deriving DecidableEq, Repr

/-- `EntityEntry`: tracked entity, lifecycle state and the `OriginalValues`
snapshot. `entityType`/`pkField` caches live inside `entity.model`. -/
structure EntityEntry where
  entity : Entity
  state : EntityState
  originalValues : List (String × Value)
deriving DecidableEq, Repr

/-- `captureOriginalValues`: snapshot every field's current value under its
field name. -/
def captureOriginalValues (e : Entity) : List (String × Value) :=
  e.namedVals

/-- `newEntityEntry`: snapshot only for the states that need one
(Unchanged/Modified). -/
def newEntityEntry (e : Entity) (st : EntityState) : EntityEntry :=
  ⟨e, st,
    if st = EntityState.unchanged ∨ st = EntityState.modified
    then captureOriginalValues e else []⟩

/-- `EntityEntry.GetPrimaryKey`: current value of the designated primary-key
field (`nil` when no primary-key field exists). -/
def EntityEntry.getPrimaryKey (en : EntityEntry) : Value :=
  if en.entity.model.pkField = "" then Value.null
  else (en.entity.getField en.entity.model.pkField).getD Value.null

/-- The comparison loop of `GetChangedProperties`: every current
`fieldName value` pair whose value differs from the snapshot entry of the
same name (struct order, `DeepEqual` comparison, only fields present in the
snapshot). -/
def changedOf (pairs orig : List (String × Value)) : List (String × Value) :=
  pairs.filterMap fun p =>
    match alookup p.1 orig with
    | some o => if p.2 ≠ o then some p else none
    | none => none

/-- `EntityEntry.GetChangedProperties`: `nil` outside Modified/Unchanged;
otherwise the differing current values. -/
def EntityEntry.getChangedProperties (en : EntityEntry) : List (String × Value) :=
  if en.state ≠ EntityState.modified ∧ en.state ≠ EntityState.unchanged then []
  else changedOf en.entity.namedVals en.originalValues

/-- `EntityEntry.HasChanges`. -/
def EntityEntry.hasChanges (en : EntityEntry) : Bool :=
  if en.state = EntityState.added ∨ en.state = EntityState.deleted then true
  else en.getChangedProperties.length > 0

/-- `EntityEntry.DetectChanges`: promote a dirty Unchanged entry to
Modified. -/
def EntityEntry.detectChanges (en : EntityEntry) : EntityEntry :=
  if en.state = EntityState.unchanged ∧ en.getChangedProperties.length > 0
  then ⟨en.entity, EntityState.modified, en.originalValues⟩
  else en

/-- `EntityEntry.AcceptChanges`: re-baseline to Unchanged with a fresh
snapshot. -/
def EntityEntry.acceptChanges (en : EntityEntry) : EntityEntry :=
  ⟨en.entity, EntityState.unchanged, captureOriginalValues en.entity⟩

/-- The change tracker's identity map: Go map from `makeKey` strings to
entries, modelled as an association list (one binding per key). -/
structure ChangeTracker where
  entries : List (String × EntityEntry)
deriving DecidableEq, Repr

/-- `ChangeTracker.makeKey`: `Type:pk` for a non-zero primary key, else the
pointer-address form `Type:ptr:0x...`. -/
def makeKey (e : Entity) (pk : Value) : String :=
  if isZeroValue pk then e.model.typeName ++ ":ptr:" ++ toString e.addr
  else e.model.typeName ++ ":" ++ showValue pk

/-- Go map assignment `ct.entries[key] = entry`: overwrite the binding if the
key is present, append otherwise. -/
def assocSet (key : String) (en : EntityEntry) :
    List (String × EntityEntry) → List (String × EntityEntry)
  | [] => [(key, en)]
  | (k, e) :: rest =>
      if k = key then (k, en) :: rest else (k, e) :: assocSet key en rest

/-- Association-list lookup on the tracker map. -/
def lookupEntry (ct : ChangeTracker) (key : String) : Option EntityEntry :=
  match ct.entries.find? fun p => p.1 = key with
  | some p => some p.2
  | none => none

/-- `ChangeTracker.Track`. -/
def ChangeTracker.track (ct : ChangeTracker) (e : Entity) (st : EntityState) :
    ChangeTracker × EntityEntry :=
  let entry := newEntityEntry e st
  let key := makeKey e entry.getPrimaryKey
  ⟨⟨assocSet key entry ct.entries⟩, entry⟩

/-- `ChangeTracker.GetEntry`: pointer identity first, then the identity
key. -/
def ChangeTracker.getEntry (ct : ChangeTracker) (e : Entity) : Option EntityEntry :=
  match ct.entries.find? fun p => p.2.entity.addr = e.addr with
  | some p => some p.2
  | none =>
      let tempEntry := newEntityEntry e EntityState.detached
      lookupEntry ct (makeKey e tempEntry.getPrimaryKey)

/-- `ChangeTracker.GetEntryByKey`: lookup under `TypeName:pk`. -/
def ChangeTracker.getEntryByKey (ct : ChangeTracker) (typeName : String) (pk : Value) :
    Option EntityEntry :=
  lookupEntry ct (typeName ++ ":" ++ showValue pk)

/-- `ChangeTracker.EntriesByState`. -/
def ChangeTracker.entriesByState (ct : ChangeTracker) (st : EntityState) :
    List (String × EntityEntry) :=
  ct.entries.filter fun p => p.2.state = st

/-- `ChangeTracker.DetectChanges`: sweep every entry. -/
def ChangeTracker.detectChanges (ct : ChangeTracker) : ChangeTracker :=
  ⟨ct.entries.map fun p => (p.1, p.2.detectChanges)⟩

/-- `ChangeTracker.AcceptAllChanges`: drop Deleted entries, re-baseline the
rest to Unchanged. -/
def ChangeTracker.acceptAllChanges (ct : ChangeTracker) : ChangeTracker :=
  ⟨(ct.entries.filter fun p => p.2.state ≠ EntityState.deleted).map
      fun p => (p.1, p.2.acceptChanges)⟩

/-- `GetEntry` with the map binding the entry was found under (the Go entry
is a pointer into the map, so mutating it mutates the binding). -/
def ChangeTracker.getEntryKV (ct : ChangeTracker) (e : Entity) :
    Option (String × EntityEntry) :=
  match ct.entries.find? fun p => p.2.entity.addr = e.addr with
  | some p => some p
  | none =>
      let tempEntry := newEntityEntry e EntityState.detached
      let key := makeKey e tempEntry.getPrimaryKey
      match ct.entries.find? fun p => p.1 = key with
      | some p => some p
      | none => none

/-- `DB.Update`: flip a tracked entity to Modified, otherwise start tracking
it as Modified (capturing the snapshot at that moment). -/
def dbUpdate (ct : ChangeTracker) (e : Entity) : ChangeTracker × EntityEntry :=
  match ct.getEntryKV e with
  | some p =>
      let entry' : EntityEntry := ⟨p.2.entity, EntityState.modified, p.2.originalValues⟩
      ⟨⟨ct.entries.map fun q => if q.1 = p.1 then (q.1, entry') else q⟩, entry'⟩
  | none => ct.track e EntityState.modified

/-- One executed parameterized statement. -/
structure SqlStmt where
  sql : String
  args : List Value
deriving DecidableEq, Repr

/-- The external connection: effects already committed (visible), and effects
applied inside the currently open transaction (invisible until commit).
Statements executed directly on the connection (`apolon.conn`) autocommit
into `committed`; statements executed through the `*sql.Tx` go to
`pending`. -/
structure DbState where
  committed : List SqlStmt
  pending : List SqlStmt
deriving DecidableEq, Repr

/-- The external executor collaborator: which statements fail, the
affected-row counts, and the store-generated key an `INSERT ... RETURNING`
scan produces. -/
structure ExecOracle where
  beginFails : Bool
  commitFails : Bool
  fails : String → List Value → Bool
  rowsAffected : String → List Value → Nat
  genKey : String → List Value → Value

/-- Observable flush events: a statement execution (`onConn` = executed on
the raw connection, autocommitting, rather than through the transaction),
tagged with the identity-map key of the entry it belongs to, plus the
transaction lifecycle and `AcceptAllChanges`. -/
inductive Ev where
  | exec (onConn : Bool) (key : String) (stmt : SqlStmt)
  | beginTx
  | commitTx
  | rollbackTx
  | accept
deriving DecidableEq, Repr

/-- `getPKColumnName`: the database column of the primary-key field (empty
when there is no primary-key field). -/
def getPKColumnName (e : Entity) : String :=
  if e.model.pkField = "" then "" else e.model.pkColumn

/-- What one per-entry statement produces: rows affected, new connection
state, the mutated entity if the statement wrote one back, and the emitted
events. -/
structure StepOk where
  n : Nat
  db : DbState
  upd : Option Entity
  evs : List Ev
deriving Repr

/-- `executeDelete`: `DELETE FROM table WHERE pkcol = $1`, executed through
the transaction. -/
def stepDelete (o : ExecOracle) (db : DbState) (item : String × EntityEntry) :
    Except String StepOk :=
  let en := item.2
  let pkColName := getPKColumnName en.entity
  let pkValue := en.getPrimaryKey
  let query := "DELETE FROM " ++ en.entity.model.table ++ " WHERE " ++ pkColName ++ " = $1"
  if o.fails query [pkValue] then Except.error "delete failed"
  else Except.ok ⟨o.rowsAffected query [pkValue],
    ⟨db.committed, db.pending ++ [⟨query, [pkValue]⟩]⟩, none,
    [Ev.exec false item.1 ⟨query, [pkValue]⟩]⟩

/-- The column/value loop of `executeInsert`: every field, except a
primary-key field whose current value is the zero value. -/
def insertColsVals (pkField : String) : List (FieldDef × Value) → List String × List Value
  | [] => ⟨[], []⟩
  | (fd, v) :: rest =>
      if pkField ≠ "" ∧ fd.name = pkField ∧ isZeroValue v = true then
        insertColsVals pkField rest
      else
        let r := insertColsVals pkField rest
        ⟨fd.column :: r.1, v :: r.2⟩

/-- The base INSERT statement `executeInsert` builds (before the RETURNING
suffix): placeholders `$1..$n` in value order. -/
def buildInsert (e : Entity) : SqlStmt :=
  let cv := insertColsVals e.model.pkField (e.model.fields.zip e.vals)
  let phs := (List.range cv.2.length).map fun i => ph (i + 1)
  ⟨"INSERT INTO " ++ e.model.table ++ " (" ++ String.intercalate ", " cv.1 ++
    ") VALUES (" ++ String.intercalate ", " phs ++ ")", cv.2⟩

/-- `executeInsert`: when the entity has a primary-key field with a known
column, the statement gets a `RETURNING pkcol` suffix and runs through
`apolon.conn.QueryRow` — the raw autocommitting connection, not the
transaction — then the scanned key is written into the entity's primary-key
field and the affected count is 1.  Only the no-primary-key fallback runs
through the transaction's `Exec`. -/
def stepInsert (o : ExecOracle) (db : DbState) (item : String × EntityEntry) :
    Except String StepOk :=
  let e := item.2.entity
  let base := buildInsert e
  if e.model.pkField ≠ "" ∧ getPKColumnName e ≠ "" then
    let query := base.sql ++ " RETURNING " ++ getPKColumnName e
    if o.fails query base.args then Except.error "insert failed"
    else
      let newPK := o.genKey query base.args
      Except.ok ⟨1, ⟨db.committed ++ [⟨query, base.args⟩], db.pending⟩,
        some (e.setField e.model.pkField newPK),
        [Ev.exec true item.1 ⟨query, base.args⟩]⟩
  else
    if o.fails base.sql base.args then Except.error "insert failed"
    else Except.ok ⟨o.rowsAffected base.sql base.args,
      ⟨db.committed, db.pending ++ [base]⟩, none,
      [Ev.exec false item.1 base]⟩

/-- The SET-clause loop of `executeUpdate`: fields whose name is in the
changed map get `col = $paramIdx` with the index incremented per emitted
clause; values are the current field values. -/
def updateSetClauses (changed : List (String × Value)) :
    List (FieldDef × Value) → Nat → List String × List Value
  | [], _ => ⟨[], []⟩
  | (fd, v) :: rest, paramIdx =>
      if (alookup fd.name changed).isSome then
        let r := updateSetClauses changed rest (paramIdx + 1)
        ⟨(fd.column ++ " = " ++ ph paramIdx) :: r.1, v :: r.2⟩
      else updateSetClauses changed rest paramIdx

/-- `executeUpdate`: no statement and zero affected rows when nothing
changed; otherwise `UPDATE table SET <changed cols> WHERE pkcol = $k` with
the primary key appended as the last argument, through the transaction. -/
def stepUpdate (o : ExecOracle) (db : DbState) (item : String × EntityEntry) :
    Except String StepOk :=
  let en := item.2
  let changed := en.getChangedProperties
  if changed.length = 0 then Except.ok ⟨0, db, none, []⟩
  else
    let sc := updateSetClauses changed (en.entity.model.fields.zip en.entity.vals) 1
    let paramIdx := sc.2.length + 1
    let vals := sc.2 ++ [en.getPrimaryKey]
    let query := "UPDATE " ++ en.entity.model.table ++ " SET " ++
      String.intercalate ", " sc.1 ++ " WHERE " ++ getPKColumnName en.entity ++
      " = " ++ ph paramIdx
    if o.fails query vals then Except.error "update failed"
    else Except.ok ⟨o.rowsAffected query vals,
      ⟨db.committed, db.pending ++ [⟨query, vals⟩]⟩, none,
      [Ev.exec false item.1 ⟨query, vals⟩]⟩

/-- Write an entity back into the map binding it was processed under (the Go
insert mutates the entity through its pointer). -/
def updateEntityAt (ct : ChangeTracker) (key : String) (e : Entity) : ChangeTracker :=
  ⟨ct.entries.map fun p =>
      if p.1 = key then (p.1, ⟨e, p.2.state, p.2.originalValues⟩) else p⟩

/-- Accumulated result of a statement phase (or of the whole flush). -/
structure PhaseRes where
  affected : Nat
  error : Option String
  db : DbState
  ct : ChangeTracker
  trace : List Ev
deriving Repr

/-- One `for _, entry := range ...` statement loop of `SaveChangesContext`:
stop at the first failing statement, returning the affected count
accumulated so far. -/
def runPhase (step : DbState → String × EntityEntry → Except String StepOk) :
    List (String × EntityEntry) → DbState → ChangeTracker → Nat → PhaseRes
  | [], db, ct, acc => ⟨acc, none, db, ct, []⟩
  | item :: rest, db, ct, acc =>
      match step db item with
      | Except.error msg => ⟨acc, some msg, db, ct, []⟩
      | Except.ok r =>
          let ct' := match r.upd with
            | none => ct
            | some e => updateEntityAt ct item.1 e
          let pr := runPhase step rest r.db ct' (acc + r.n)
          ⟨pr.affected, pr.error, pr.db, pr.ct, r.evs ++ pr.trace⟩

/-- Result of `SaveChangesContext`. -/
structure FlushResult where
  affected : Nat
  error : Option String
  db : DbState
  ct : ChangeTracker
  trace : List Ev
deriving Repr

/-- `tx.Rollback` on an owned transaction: discard the pending effects. -/
def rollbackDb (db : DbState) : DbState :=
  ⟨db.committed, []⟩

/-- An early error return from `SaveChangesContext`: with an owned
transaction the deferred rollback discards the pending effects; with a
caller-supplied transaction nothing else happens. -/
def finishErr (txSupplied : Bool) (acc : Nat) (msg : String) (db : DbState)
    (ct : ChangeTracker) (tr : List Ev) : FlushResult :=
  if txSupplied then ⟨acc, some msg, db, ct, tr⟩
  else ⟨acc, some msg, rollbackDb db, ct, tr ++ [Ev.rollbackTx]⟩

/-- The four statement loops of `SaveChangesContext`, fail-fast: all Deleted
entries, then all Added entries, then all Modified entries, then Unchanged
entries with detected changes — each phase reading the live map. -/
def runAllPhases (o : ExecOracle) (db : DbState) (ct : ChangeTracker) : PhaseRes :=
  let r1 := runPhase (stepDelete o) (ct.entriesByState EntityState.deleted) db ct 0
  match r1.error with
  | some msg => ⟨r1.affected, some msg, r1.db, r1.ct, r1.trace⟩
  | none =>
    let r2 := runPhase (stepInsert o) (r1.ct.entriesByState EntityState.added)
      r1.db r1.ct r1.affected
    match r2.error with
    | some msg => ⟨r2.affected, some msg, r2.db, r2.ct, r1.trace ++ r2.trace⟩
    | none =>
      let r3 := runPhase (stepUpdate o) (r2.ct.entriesByState EntityState.modified)
        r2.db r2.ct r2.affected
      match r3.error with
      | some msg =>
          ⟨r3.affected, some msg, r3.db, r3.ct, r1.trace ++ r2.trace ++ r3.trace⟩
      | none =>
        let r4 := runPhase (stepUpdate o)
          ((r3.ct.entriesByState EntityState.unchanged).filter fun p => p.2.hasChanges)
          r3.db r3.ct r3.affected
        ⟨r4.affected, r4.error, r4.db, r4.ct,
          r1.trace ++ r2.trace ++ r3.trace ++ r4.trace⟩

/-- `DB.SaveChangesContext(tx)`: detect changes, open an owned transaction
when none is supplied, run the statement phases with fail-fast rollback,
commit an owned transaction on success, then `AcceptAllChanges`. -/
def saveChangesContext (o : ExecOracle) (db0 : DbState) (ct0 : ChangeTracker)
    (txSupplied : Bool) : FlushResult :=
  let ct := ct0.detectChanges
  if txSupplied = false ∧ o.beginFails = true then
    ⟨0, some "failed to begin transaction", db0, ct, []⟩
  else
    let tr0 : List Ev := if txSupplied then [] else [Ev.beginTx]
    let pr := runAllPhases o db0 ct
    match pr.error with
    | some msg => finishErr txSupplied pr.affected msg pr.db pr.ct (tr0 ++ pr.trace)
    | none =>
      if txSupplied then
        ⟨pr.affected, none, pr.db, pr.ct.acceptAllChanges, tr0 ++ pr.trace ++ [Ev.accept]⟩
      else if o.commitFails then
        ⟨pr.affected, some "failed to commit transaction", rollbackDb pr.db, pr.ct,
          tr0 ++ pr.trace ++ [Ev.rollbackTx]⟩
      else
        ⟨pr.affected, none, ⟨pr.db.committed ++ pr.db.pending, []⟩,
          pr.ct.acceptAllChanges, tr0 ++ pr.trace ++ [Ev.commitTx, Ev.accept]⟩

/-! Concrete fixtures: the README's `Patient` shape. -/

/-- `Patient` struct shape: `ID int (apolon:"id,pk")`, `Name string`,
`Age int`. -/
def patientModel : ModelInfo :=
  ⟨"Patient", "patients", [⟨"ID", "id"⟩, ⟨"Name", "name"⟩, ⟨"Age", "age"⟩], "ID", "id"⟩

/-- A new patient with an unset primary key. -/
def johnEntity : Entity := ⟨1, patientModel, [.int 0, .str "John", .int 30]⟩

/-- A loaded patient with primary key 7. -/
def maryEntity : Entity := ⟨2, patientModel, [.int 7, .str "Mary", .int 40]⟩

/-- Mary tracked as Unchanged at load time, then her `Age` field mutated to
41 through the entity pointer. -/
def maryDirtyEntry : EntityEntry :=
  ⟨maryEntity.setField "Age" (.int 41), EntityState.unchanged,
    captureOriginalValues maryEntity⟩

/-- Tracker holding the new John (Added) and the dirtied Mary. -/
def flushFixtureCt : ChangeTracker :=
  ⟨[(makeKey johnEntity (newEntityEntry johnEntity EntityState.added).getPrimaryKey,
      newEntityEntry johnEntity EntityState.added),
    (makeKey maryEntity (.int 7), maryDirtyEntry)]⟩

/-- Oracle under which exactly Mary's `UPDATE` statement fails and
everything else succeeds, affecting one row; the store generates key 42. -/
def updateFailsOracle : ExecOracle :=
  ⟨false, false, fun q _ => q = "UPDATE patients SET age = $1 WHERE id = $2",
    fun _ _ => 1, fun _ _ => .int 42⟩

/-- Oracle under which every statement succeeds. -/
def allOkOracle : ExecOracle :=
  ⟨false, false, fun _ _ => false, fun _ _ => 1, fun _ _ => .int 42⟩

/-- C1 (bug demonstration): a flush with an owned transaction containing an
Added `Patient` (zero primary key) and a dirty tracked `Patient` whose
`UPDATE` fails.  The flush reports the error and the owned transaction is
rolled back (`pending = []`), yet the INSERT's effect is still visible in
the committed state after the flush returns — because `executeInsert` runs
its `RETURNING` statement through `apolon.conn.QueryRow`, the raw
autocommitting connection, instead of through the transaction executor it
was handed. -/
theorem insert_visible_after_failed_flush :
    (saveChangesContext updateFailsOracle ⟨[], []⟩ flushFixtureCt false).error.isSome = true ∧
    (saveChangesContext updateFailsOracle ⟨[], []⟩ flushFixtureCt false).db.pending = [] ∧
    (saveChangesContext updateFailsOracle ⟨[], []⟩ flushFixtureCt false).db.committed =
      [⟨"INSERT INTO patients (name, age) VALUES ($1, $2) RETURNING id",
        [.str "John", .int 30]⟩] ∧
    Ev.rollbackTx ∈ (saveChangesContext updateFailsOracle ⟨[], []⟩ flushFixtureCt false).trace := by
  decide

/-- Statement-execution events, as opposed to transaction-lifecycle and
acceptance events. -/
def isExecEv : Ev → Bool
  | .exec _ _ _ => true
  | _ => false

theorem stepDelete_exec_only (o : ExecOracle) (db : DbState)
    (it : String × EntityEntry) (r : StepOk) (h : stepDelete o db it = Except.ok r) :
    ∀ ev ∈ r.evs, isExecEv ev = true := by
  simp only [stepDelete] at h
  split at h
  · exact absurd h (by simp)
  · cases h
    simp [isExecEv]

theorem stepInsert_exec_only (o : ExecOracle) (db : DbState)
    (it : String × EntityEntry) (r : StepOk) (h : stepInsert o db it = Except.ok r) :
    ∀ ev ∈ r.evs, isExecEv ev = true := by
  simp only [stepInsert] at h
  split at h
  · split at h
    · exact absurd h (by simp)
    · cases h
      simp [isExecEv]
  · split at h
    · exact absurd h (by simp)
    · cases h
      simp [isExecEv]

theorem stepUpdate_exec_only (o : ExecOracle) (db : DbState)
    (it : String × EntityEntry) (r : StepOk) (h : stepUpdate o db it = Except.ok r) :
    ∀ ev ∈ r.evs, isExecEv ev = true := by
  simp only [stepUpdate] at h
  split at h
  · cases h
    simp
  · split at h
    · exact absurd h (by simp)
    · cases h
      simp [isExecEv]

theorem runPhase_exec_only (step : DbState → String × EntityEntry → Except String StepOk)
    (hstep : ∀ db it r, step db it = Except.ok r → ∀ ev ∈ r.evs, isExecEv ev = true) :
    ∀ (items : List (String × EntityEntry)) (db : DbState) (ct : ChangeTracker)
      (acc : Nat), ∀ ev ∈ (runPhase step items db ct acc).trace, isExecEv ev = true := by
  intro items
  induction items with
  | nil =>
      intro db ct acc ev hev
      simp [runPhase] at hev
  | cons item rest ih =>
      intro db ct acc ev hev
      simp only [runPhase] at hev
      cases h : step db item with
      | error msg =>
          rw [h] at hev
          simp at hev
      | ok r =>
          rw [h] at hev
          simp only [List.mem_append] at hev
          rcases hev with h1 | h2
          · exact hstep db item r h ev h1
          · exact ih _ _ _ ev h2

theorem runAllPhases_exec_only (o : ExecOracle) (db : DbState) (ct : ChangeTracker) :
    ∀ ev ∈ (runAllPhases o db ct).trace, isExecEv ev = true := by
  have hd := runPhase_exec_only (stepDelete o) (stepDelete_exec_only o)
  have hi := runPhase_exec_only (stepInsert o) (stepInsert_exec_only o)
  have hu := runPhase_exec_only (stepUpdate o) (stepUpdate_exec_only o)
  intro ev hev
  simp only [runAllPhases] at hev
  split at hev
  · exact hd _ _ _ _ ev hev
  · split at hev
    · simp only [List.mem_append] at hev
      rcases hev with h1 | h2
      · exact hd _ _ _ _ ev h1
      · exact hi _ _ _ _ ev h2
    · split at hev
      · simp only [List.mem_append] at hev
        rcases hev with (h1 | h2) | h3
        · exact hd _ _ _ _ ev h1
        · exact hi _ _ _ _ ev h2
        · exact hu _ _ _ _ ev h3
      · simp only [List.mem_append] at hev
        rcases hev with ((h1 | h2) | h3) | h4
        · exact hd _ _ _ _ ev h1
        · exact hi _ _ _ _ ev h2
        · exact hu _ _ _ _ ev h3
        · exact hu _ _ _ _ ev h4

/-! Branch characterizations of `saveChangesContext`. -/

theorem saveChanges_begin_fail (o : ExecOracle) (db : DbState) (ct : ChangeTracker)
    (hb : o.beginFails = true) :
    saveChangesContext o db ct false =
      ⟨0, some "failed to begin transaction", db, ct.detectChanges, []⟩ := by
  simp [saveChangesContext, hb]

theorem saveChanges_phase_err (o : ExecOracle) (db : DbState) (ct : ChangeTracker)
    (ts : Bool) (msg : String)
    (hb : ¬(ts = false ∧ o.beginFails = true))
    (h : (runAllPhases o db ct.detectChanges).error = some msg) :
    saveChangesContext o db ct ts =
      finishErr ts (runAllPhases o db ct.detectChanges).affected msg
        (runAllPhases o db ct.detectChanges).db
        (runAllPhases o db ct.detectChanges).ct
        ((if ts = true then [] else [Ev.beginTx]) ++
          (runAllPhases o db ct.detectChanges).trace) := by
  simp only [saveChangesContext, h]
  rw [if_neg hb]

theorem saveChanges_owned_ok (o : ExecOracle) (db : DbState) (ct : ChangeTracker)
    (hb : o.beginFails = false) (hc : o.commitFails = false)
    (h : (runAllPhases o db ct.detectChanges).error = none) :
    saveChangesContext o db ct false =
      ⟨(runAllPhases o db ct.detectChanges).affected, none,
        ⟨(runAllPhases o db ct.detectChanges).db.committed ++
          (runAllPhases o db ct.detectChanges).db.pending, []⟩,
        (runAllPhases o db ct.detectChanges).ct.acceptAllChanges,
        [Ev.beginTx] ++ (runAllPhases o db ct.detectChanges).trace ++
          [Ev.commitTx, Ev.accept]⟩ := by
  simp [saveChangesContext, hb, hc, h]

theorem saveChanges_owned_commit_fail (o : ExecOracle) (db : DbState)
    (ct : ChangeTracker) (hb : o.beginFails = false) (hc : o.commitFails = true)
    (h : (runAllPhases o db ct.detectChanges).error = none) :
    saveChangesContext o db ct false =
      ⟨(runAllPhases o db ct.detectChanges).affected,
        some "failed to commit transaction",
        rollbackDb (runAllPhases o db ct.detectChanges).db,
        (runAllPhases o db ct.detectChanges).ct,
        [Ev.beginTx] ++ (runAllPhases o db ct.detectChanges).trace ++
          [Ev.rollbackTx]⟩ := by
  simp [saveChangesContext, hb, hc, h]

theorem saveChanges_supplied_ok (o : ExecOracle) (db : DbState) (ct : ChangeTracker)
    (h : (runAllPhases o db ct.detectChanges).error = none) :
    saveChangesContext o db ct true =
      ⟨(runAllPhases o db ct.detectChanges).affected, none,
        (runAllPhases o db ct.detectChanges).db,
        (runAllPhases o db ct.detectChanges).ct.acceptAllChanges,
        (runAllPhases o db ct.detectChanges).trace ++ [Ev.accept]⟩ := by
  simp [saveChangesContext, h]

/-- C2 counterexample: a fully successful flush on a caller-supplied
transaction.  `AcceptAllChanges` runs (`accept` is in the trace) although
the transaction was never committed by the flush (`commitTx` is not in the
trace) and the flush's own UPDATE is still sitting uncommitted in the
caller's transaction. -/
theorem accept_runs_before_callers_commit :
    Ev.accept ∈ (saveChangesContext allOkOracle ⟨[], []⟩ flushFixtureCt true).trace ∧
    Ev.commitTx ∉ (saveChangesContext allOkOracle ⟨[], []⟩ flushFixtureCt true).trace ∧
    (saveChangesContext allOkOracle ⟨[], []⟩ flushFixtureCt true).db.pending ≠ [] := by
  decide

/-- C2 (amended): with an owned transaction, `AcceptAllChanges` runs only
immediately after a successful commit; on any error path it never runs; with
a caller-supplied transaction it runs after all statements succeed but
before the caller's transaction commits (the flush never commits a supplied
transaction). -/
theorem accept_after_commit_when_owned (o : ExecOracle) (db : DbState)
    (ct : ChangeTracker) :
    ((saveChangesContext o db ct false).error = none →
      ∃ tr, (saveChangesContext o db ct false).trace = tr ++ [Ev.commitTx, Ev.accept]) ∧
    (∀ ts : Bool, (saveChangesContext o db ct ts).error.isSome = true →
      Ev.accept ∉ (saveChangesContext o db ct ts).trace) ∧
    ((saveChangesContext o db ct true).error = none →
      Ev.accept ∈ (saveChangesContext o db ct true).trace ∧
      Ev.commitTx ∉ (saveChangesContext o db ct true).trace) := by
  have hexec := runAllPhases_exec_only o db ct.detectChanges
  refine ⟨?_, ?_, ?_⟩
  · intro herr
    cases hb : o.beginFails with
    | true =>
        rw [saveChanges_begin_fail o db ct hb] at herr
        simp at herr
    | false =>
        cases hpe : (runAllPhases o db ct.detectChanges).error with
        | some msg =>
            rw [saveChanges_phase_err o db ct false msg (by simp [hb]) hpe] at herr
            simp [finishErr] at herr
        | none =>
            cases hc : o.commitFails with
            | true =>
                rw [saveChanges_owned_commit_fail o db ct hb hc hpe] at herr
                simp at herr
            | false =>
                rw [saveChanges_owned_ok o db ct hb hc hpe]
                exact ⟨[Ev.beginTx] ++ (runAllPhases o db ct.detectChanges).trace,
                  by simp⟩
  · intro ts herr hmem
    cases ts with
    | true =>
        cases hpe : (runAllPhases o db ct.detectChanges).error with
        | some msg =>
            rw [saveChanges_phase_err o db ct true msg (by simp) hpe] at hmem
            simp only [finishErr, if_pos rfl, List.nil_append] at hmem
            have := hexec Ev.accept hmem
            simp [isExecEv] at this
        | none =>
            rw [saveChanges_supplied_ok o db ct hpe] at herr
            simp at herr
    | false =>
        cases hb : o.beginFails with
        | true =>
            rw [saveChanges_begin_fail o db ct hb] at hmem
            simp at hmem
        | false =>
            cases hpe : (runAllPhases o db ct.detectChanges).error with
            | some msg =>
                rw [saveChanges_phase_err o db ct false msg (by simp [hb]) hpe] at hmem
                simp only [finishErr, if_neg (by simp : ¬(false = true)),
                  FlushResult.trace, List.mem_append, List.mem_singleton,
                  List.mem_cons, List.not_mem_nil, or_false] at hmem
                rcases hmem with (h0 | hp) | hr
                · simp at h0
                · have := hexec Ev.accept hp
                  simp [isExecEv] at this
                · exact absurd hr (by simp)
            | none =>
                cases hc : o.commitFails with
                | true =>
                    rw [saveChanges_owned_commit_fail o db ct hb hc hpe] at hmem
                    simp only [FlushResult.trace, List.mem_append, List.mem_singleton,
                      List.mem_cons, List.not_mem_nil, or_false] at hmem
                    rcases hmem with (h0 | hp) | hr
                    · simp at h0
                    · have := hexec Ev.accept hp
                      simp [isExecEv] at this
                    · exact absurd hr (by simp)
                | false =>
                    rw [saveChanges_owned_ok o db ct hb hc hpe] at herr
                    simp at herr
  · intro herr
    cases hpe : (runAllPhases o db ct.detectChanges).error with
    | some msg =>
        rw [saveChanges_phase_err o db ct true msg (by simp) hpe] at herr
        simp [finishErr] at herr
    | none =>
        rw [saveChanges_supplied_ok o db ct hpe]
        constructor
        · simp
        · intro hmem
          simp only [FlushResult.trace, List.mem_append, List.mem_singleton] at hmem
          rcases hmem with hp | hr
          · have := hexec Ev.commitTx hp
            simp [isExecEv] at this
          · exact absurd hr (by simp)

/-- Witness for `accept_after_commit_when_owned`: on an empty tracker with
the all-success oracle, the owned flush succeeds and the trace ends with
commit followed by accept. -/
theorem accept_after_commit_when_owned_instance :
    (saveChangesContext allOkOracle ⟨[], []⟩ ⟨[]⟩ false).error = none ∧
    ∃ tr, (saveChangesContext allOkOracle ⟨[], []⟩ ⟨[]⟩ false).trace =
      tr ++ [Ev.commitTx, Ev.accept] :=
  ⟨by decide, (accept_after_commit_when_owned allOkOracle ⟨[], []⟩ ⟨[]⟩).1 (by decide)⟩

/-! Dirty-field diffing lemmas. -/

theorem alookup_self (l : List (String × Value)) (hn : (l.map Prod.fst).Nodup) :
    ∀ p ∈ l, alookup p.1 l = some p.2 := by
  induction l with
  | nil => simp
  | cons q rest ih =>
      intro p hp
      rcases List.mem_cons.mp hp with hq | hr
      · subst hq
        simp [alookup]
      · have hne : q.1 ≠ p.1 := by
          intro hcontra
          have : p.1 ∈ rest.map Prod.fst := List.mem_map_of_mem Prod.fst hr
          rw [← hcontra] at this
          exact (List.nodup_cons.mp hn).1 this
        simp only [alookup, if_neg hne]
        exact ih (List.nodup_cons.mp hn).2 p hr

theorem changedOf_eq_nil (pairs orig : List (String × Value))
    (h : ∀ p ∈ pairs, alookup p.1 orig = some p.2) :
    changedOf pairs orig = [] := by
  induction pairs with
  | nil => rfl
  | cons p rest ih =>
      have hp := h p (List.mem_cons_self p rest)
      have htail : changedOf rest orig = [] :=
        ih fun q hq => h q (List.mem_cons_of_mem p hq)
      simp only [changedOf, List.filterMap_cons, hp] at htail ⊢
      rw [if_neg (by simp)]
      exact htail

theorem setVals_id (name : String) (v : Value) :
    ∀ (fields : List FieldDef) (vals : List Value),
      vals.length = fields.length →
      (∀ fd ∈ fields, fd.name ≠ name) →
      (fields.zip vals).map (fun p => if p.1.name = name then v else p.2) = vals := by
  intro fields
  induction fields with
  | nil =>
      intro vals hlen _
      have hv : vals = [] := List.length_eq_zero.mp (by simpa using hlen)
      subst hv
      rfl
  | cons fd fs ih =>
      intro vals hlen hne
      cases vals with
      | nil => simp at hlen
      | cons x xs =>
          have hfd : fd.name ≠ name := hne fd (List.mem_cons_self fd fs)
          simp only [List.zip_cons_cons, List.map_cons, if_neg hfd]
          rw [ih xs (by simpa using hlen) fun fd' h' => hne fd' (List.mem_cons_of_mem fd h')]

theorem changed_setField_single (name : String) (v : Value) :
    ∀ (fields : List FieldDef) (vals : List Value) (orig : List (String × Value)) (w : Value),
      (fields.map FieldDef.name).Nodup →
      vals.length = fields.length →
      (∀ p ∈ (fields.map FieldDef.name).zip vals, alookup p.1 orig = some p.2) →
      alookup name ((fields.map FieldDef.name).zip vals) = some w →
      v ≠ w →
      changedOf ((fields.map FieldDef.name).zip
          ((fields.zip vals).map fun p => if p.1.name = name then v else p.2)) orig =
        [(name, v)] := by
  intro fields
  induction fields with
  | nil =>
      intro vals orig w _ _ _ hw _
      simp [alookup] at hw
  | cons fd fs ih =>
      intro vals orig w hnd hlen hor hw hne
      cases vals with
      | nil => simp at hlen
      | cons x xs =>
          have hlen' : xs.length = fs.length := by simpa using hlen
          have hor0 : alookup fd.name orig = some x :=
            hor (fd.name, x) (by simp)
          have hortail : ∀ p ∈ (fs.map FieldDef.name).zip xs, alookup p.1 orig = some p.2 :=
            fun p hp => hor p (by simp [hp])
          by_cases hfd : fd.name = name
          · have hwx : w = x := by
              simp only [List.map_cons, List.zip_cons_cons, alookup, if_pos hfd] at hw
              exact (Option.some.inj hw).symm
            have hnotin : ∀ fd' ∈ fs, fd'.name ≠ name := by
              intro fd' h' hcontra
              have h1 : name ∈ fs.map FieldDef.name := by
                rw [← hcontra]
                exact List.mem_map_of_mem FieldDef.name h'
              rw [← hfd] at h1
              exact (List.nodup_cons.mp (by simpa using hnd)).1 h1
            have hrest := setVals_id name v fs xs hlen' hnotin
            have htail := changedOf_eq_nil ((fs.map FieldDef.name).zip xs) orig hortail
            simp only [changedOf, List.zip_eq_zipWith] at htail ⊢
            rw [List.zip_eq_zipWith] at hrest
            simp only [List.map_cons, List.zipWith_cons_cons, List.filterMap_cons,
              if_pos hfd, hrest, hor0]
            rw [if_pos (by rw [hwx] at hne; simpa using hne)]
            rw [htail, hfd]
          · have hw2 : alookup name ((fs.map FieldDef.name).zip xs) = some w := by
              simp only [List.map_cons, List.zip_cons_cons, alookup, if_neg hfd] at hw
              exact hw
            have hrec := ih xs orig w
              (by simpa using (List.nodup_cons.mp (by simpa using hnd)).2)
              hlen' hortail hw2 hne
            simp only [changedOf, List.zip_eq_zipWith] at hrec ⊢
            simp only [List.map_cons, List.zipWith_cons_cons, List.filterMap_cons,
              if_neg hfd, hor0]
            rw [if_neg (by simp)]
            exact hrec

/-- `namedVals` projects back to the field names when the value vector is
complete. -/
theorem namedVals_map_fst (e : Entity) (hlen : e.vals.length = e.model.fields.length) :
    e.namedVals.map Prod.fst = e.model.fields.map FieldDef.name := by
  apply List.map_fst_zip
  simpa using hlen.ge

/-- A snapshot captured from the current values diffs to nothing. -/
theorem changedOf_fresh_snapshot (e : Entity)
    (hnd : (e.model.fields.map FieldDef.name).Nodup)
    (hlen : e.vals.length = e.model.fields.length) :
    changedOf e.namedVals e.namedVals = [] :=
  changedOf_eq_nil e.namedVals e.namedVals
    (alookup_self e.namedVals (by rw [namedVals_map_fst e hlen]; exact hnd))

/-- C8: an entity tracked Unchanged with `Age = 25` in the snapshot, whose
`Age` field is then mutated to 26 (every other field untouched, which the
construction guarantees), is promoted to Modified by detect-changes and its
changed-field mapping is exactly `Age 26`; and a freshly snapshotted entry
diffs to the empty mapping (`GetChangedProperties` never errors). -/
theorem detect_changes_age_mutation (e : Entity)
    (hnd : (e.model.fields.map FieldDef.name).Nodup)
    (hlen : e.vals.length = e.model.fields.length)
    (hage : e.getField "Age" = some (.int 25)) :
    (EntityEntry.mk (e.setField "Age" (.int 26)) EntityState.unchanged
        (captureOriginalValues e)).detectChanges.state = EntityState.modified ∧
    (EntityEntry.mk (e.setField "Age" (.int 26)) EntityState.unchanged
        (captureOriginalValues e)).getChangedProperties = [("Age", .int 26)] ∧
    (newEntityEntry e EntityState.unchanged).getChangedProperties = [] := by
  have hor : ∀ p ∈ (e.model.fields.map FieldDef.name).zip e.vals,
      alookup p.1 e.namedVals = some p.2 :=
    alookup_self e.namedVals (by rw [namedVals_map_fst e hlen]; exact hnd)
  have hw : alookup "Age" ((e.model.fields.map FieldDef.name).zip e.vals) =
      some (.int 25) := hage
  have hchanged :
      (EntityEntry.mk (e.setField "Age" (.int 26)) EntityState.unchanged
        (captureOriginalValues e)).getChangedProperties = [("Age", .int 26)] := by
    have := changed_setField_single "Age" (.int 26) e.model.fields e.vals
      e.namedVals (.int 25) hnd hlen hor hw (by decide)
    simpa [EntityEntry.getChangedProperties, Entity.namedVals, Entity.setField,
      captureOriginalValues] using this
  refine ⟨?_, hchanged, ?_⟩
  · simp [EntityEntry.detectChanges, hchanged]
  · simp [newEntityEntry, EntityEntry.getChangedProperties, captureOriginalValues,
      changedOf_fresh_snapshot e hnd hlen]

/-- Bob, tracked with `Age = 25`. -/
def bobEntity : Entity := ⟨5, patientModel, [.int 7, .str "Bob", .int 25]⟩

/-- Witness for `detect_changes_age_mutation` on a concrete patient. -/
theorem detect_changes_age_mutation_instance :
    ((bobEntity.model.fields.map FieldDef.name).Nodup ∧
      bobEntity.vals.length = bobEntity.model.fields.length ∧
      bobEntity.getField "Age" = some (.int 25)) ∧
    (EntityEntry.mk (bobEntity.setField "Age" (.int 26)) EntityState.unchanged
        (captureOriginalValues bobEntity)).getChangedProperties = [("Age", .int 26)] :=
  ⟨⟨by decide, by decide, by decide⟩,
    (detect_changes_age_mutation bobEntity (by decide) (by decide) (by decide)).2.1⟩

/-- C10: `DB.Update` on an entity that is not currently tracked creates an
entry in state Modified whose snapshot is captured from the entity's values
at that moment, so its changed-field set is empty, `executeUpdate` emits no
statement and zero affected rows for it, and an owned `SaveChanges` over a
tracker holding only this entry executes no statements and returns affected
count 0 — the entity's earlier mutations are silently not persisted. -/
theorem update_untracked_silent_noop (ct : ChangeTracker) (e : Entity)
    (hnd : (e.model.fields.map FieldDef.name).Nodup)
    (hlen : e.vals.length = e.model.fields.length)
    (hun : ct.getEntryKV e = none) :
    (dbUpdate ct e).2.state = EntityState.modified ∧
    (dbUpdate ct e).2.originalValues = captureOriginalValues e ∧
    (dbUpdate ct e).2.getChangedProperties = [] ∧
    (∀ (o : ExecOracle) (db : DbState) (k : String),
        stepUpdate o db (k, (dbUpdate ct e).2) = Except.ok ⟨0, db, none, []⟩) ∧
    (∀ (o : ExecOracle) (dbc : List SqlStmt),
        o.beginFails = false → o.commitFails = false →
        (saveChangesContext o ⟨dbc, []⟩ (dbUpdate ⟨[]⟩ e).1 false).affected = 0 ∧
        (saveChangesContext o ⟨dbc, []⟩ (dbUpdate ⟨[]⟩ e).1 false).error = none ∧
        (saveChangesContext o ⟨dbc, []⟩ (dbUpdate ⟨[]⟩ e).1 false).db = ⟨dbc, []⟩ ∧
        (saveChangesContext o ⟨dbc, []⟩ (dbUpdate ⟨[]⟩ e).1 false).trace =
          [Ev.beginTx, Ev.commitTx, Ev.accept]) := by
  have hup : (dbUpdate ct e).2 = newEntityEntry e EntityState.modified := by
    simp [dbUpdate, hun, ChangeTracker.track]
  have hch : (newEntityEntry e EntityState.modified).getChangedProperties = [] := by
    simp [newEntityEntry, EntityEntry.getChangedProperties, captureOriginalValues,
      changedOf_fresh_snapshot e hnd hlen]
  have hstep : ∀ (o : ExecOracle) (db : DbState) (k : String),
      stepUpdate o db (k, newEntityEntry e EntityState.modified) =
        Except.ok ⟨0, db, none, []⟩ := by
    intro o db k
    simp [stepUpdate, hch]
  refine ⟨by rw [hup]; rfl, by rw [hup]; simp [newEntityEntry], by rw [hup]; exact hch,
    by rw [hup]; exact hstep, ?_⟩
  intro o dbc hb hc
  have hct : (dbUpdate ⟨[]⟩ e).1 =
      ⟨[(makeKey e (newEntityEntry e EntityState.modified).getPrimaryKey,
        newEntityEntry e EntityState.modified)]⟩ := by
    simp [dbUpdate, ChangeTracker.getEntryKV, lookupEntry, ChangeTracker.track, assocSet]
  have hdet : (dbUpdate ⟨[]⟩ e).1.detectChanges =
      ⟨[(makeKey e (newEntityEntry e EntityState.modified).getPrimaryKey,
        newEntityEntry e EntityState.modified)]⟩ := by
    rw [hct]
    simp [ChangeTracker.detectChanges, EntityEntry.detectChanges, newEntityEntry]
  have hphases : runAllPhases o ⟨dbc, []⟩
      (⟨[(makeKey e (newEntityEntry e EntityState.modified).getPrimaryKey,
        newEntityEntry e EntityState.modified)]⟩ : ChangeTracker) =
      ⟨0, none, ⟨dbc, []⟩,
        ⟨[(makeKey e (newEntityEntry e EntityState.modified).getPrimaryKey,
          newEntityEntry e EntityState.modified)]⟩, []⟩ := by
    have hstate : (newEntityEntry e EntityState.modified).state = EntityState.modified := rfl
    simp [runAllPhases, ChangeTracker.entriesByState, runPhase, hstep, hstate]
  have hnone : (runAllPhases o ⟨dbc, []⟩ (dbUpdate ⟨[]⟩ e).1.detectChanges).error = none := by
    rw [hdet, hphases]
  rw [saveChanges_owned_ok o ⟨dbc, []⟩ (dbUpdate ⟨[]⟩ e).1 hb hc hnone, hdet, hphases]
  simp

/-- Carol, mutated before ever being tracked. -/
def carolEntity : Entity := ⟨9, patientModel, [.int 3, .str "Carol", .int 50]⟩

/-- Witness for `update_untracked_silent_noop` on a concrete patient and the
empty tracker. -/
theorem update_untracked_silent_noop_instance :
    ((⟨[]⟩ : ChangeTracker).getEntryKV carolEntity = none ∧
      (carolEntity.model.fields.map FieldDef.name).Nodup) ∧
    (dbUpdate ⟨[]⟩ carolEntity).2.getChangedProperties = [] :=
  ⟨⟨by decide, by decide⟩,
    (update_untracked_silent_noop ⟨[]⟩ carolEntity (by decide) (by decide)
      (by decide)).2.2.1⟩

/-! `Query.Find` and the identity map. -/

/-- `Query[T].Find(pk)`: consult the identity map first (`GetEntryByKey` plus
the `*T` type assertion); only on a miss run the single-row query (the
`fetch` argument stands for the external `First()` round trip, the returned
`Nat` counts storage queries) and — tracking being on by default — enroll the
fetched entity as Unchanged. -/
def queryFind (ct : ChangeTracker) (typeName : String) (pk : Value)
    (fetch : Option Entity) : Option Entity × ChangeTracker × Nat :=
  match ct.getEntryByKey typeName pk with
  | some entry =>
      if entry.entity.model.typeName = typeName then ⟨some entry.entity, ct, 0⟩
      else
        match fetch with
        | some r => ⟨some r, (ct.track r EntityState.unchanged).1, 1⟩
        | none => ⟨none, ct, 1⟩
  | none =>
      match fetch with
      | some r => ⟨some r, (ct.track r EntityState.unchanged).1, 1⟩
      | none => ⟨none, ct, 1⟩

/-- C7: if a first `Find(pk)` returned an entity and tracked it (the tracker
now resolves `(T, pk)` to an entry holding that very instance), then a second
`Find(pk)` returns the identical in-memory instance from the identity map and
performs zero storage queries — whatever the storage would answer. -/
theorem find_twice_identity_map_hit (ct : ChangeTracker) (T : String) (pk : Value)
    (fetch : Option Entity) (e : Entity) (en : EntityEntry)
    (h1 : (queryFind ct T pk fetch).1 = some e)
    (h2 : ((queryFind ct T pk fetch).2.1).getEntryByKey T pk = some en)
    (h3 : en.entity = e)
    (h4 : e.model.typeName = T) :
    ∀ fetch2 : Option Entity,
      queryFind ((queryFind ct T pk fetch).2.1) T pk fetch2 =
        ⟨some e, (queryFind ct T pk fetch).2.1, 0⟩ := by
  intro fetch2
  set ct1 := (queryFind ct T pk fetch).2.1 with hct1
  unfold queryFind
  rw [h2]
  simp [h3, h4]

/-- A freshly materialized row for Mary (new address, same key 7). -/
def maryRowEntity : Entity := ⟨10, patientModel, [.int 7, .str "Mary", .int 40]⟩

/-- Witness for `find_twice_identity_map_hit`: the first `Find` on an empty
tracker fetches and tracks Mary's row; the second returns the same instance
with zero queries. -/
theorem find_twice_identity_map_hit_instance :
    ((queryFind ⟨[]⟩ "Patient" (.int 7) (some maryRowEntity)).1 = some maryRowEntity ∧
      (queryFind ⟨[]⟩ "Patient" (.int 7) (some maryRowEntity)).2.2 = 1) ∧
    queryFind ((queryFind ⟨[]⟩ "Patient" (.int 7) (some maryRowEntity)).2.1)
        "Patient" (.int 7) none =
      ⟨some maryRowEntity, (queryFind ⟨[]⟩ "Patient" (.int 7) (some maryRowEntity)).2.1, 0⟩ :=
  ⟨⟨by decide, by decide⟩,
    find_twice_identity_map_hit ⟨[]⟩ "Patient" (.int 7) (some maryRowEntity)
      maryRowEntity
      ⟨maryRowEntity, EntityState.unchanged, captureOriginalValues maryRowEntity⟩
      (by decide) (by decide) (by decide) (by decide) none⟩

/-! Insert-with-generated-key lemmas. -/

/-- When every field named like the primary key holds its zero value, the
insert column/value loop keeps every other field's column (in order) and
omits the primary-key field. -/
theorem insertColsVals_omits_pk (pkField : String) (hpk : pkField ≠ "") :
    ∀ l : List (FieldDef × Value),
      (∀ p ∈ l, p.1.name = pkField → isZeroValue p.2 = true) →
      insertColsVals pkField l =
        ⟨(l.filter fun p => p.1.name ≠ pkField).map fun p => p.1.column,
         (l.filter fun p => p.1.name ≠ pkField).map Prod.snd⟩ := by
  intro l
  induction l with
  | nil => intro _; rfl
  | cons p rest ih =>
      intro h
      have htail := ih fun q hq => h q (List.mem_cons_of_mem p hq)
      by_cases hp : p.1.name = pkField
      · have hz := h p (List.mem_cons_self p rest) hp
        have hcond : pkField ≠ "" ∧ p.1.name = pkField ∧ isZeroValue p.2 = true :=
          ⟨hpk, hp, hz⟩
        simp only [insertColsVals, if_pos hcond, htail, List.filter_cons]
        rw [if_neg (by simp [hp])]
      · have hcond : ¬(pkField ≠ "" ∧ p.1.name = pkField ∧ isZeroValue p.2 = true) :=
          fun hc => hp hc.2.1
        simp only [insertColsVals, if_neg hcond, htail, List.filter_cons]
        rw [if_pos (by simp [hp])]
        simp

/-- Writing a field leaves it readable with the written value (first
occurrence semantics of the reflection lookup). -/
theorem alookup_zip_set (n : String) (v : Value) :
    ∀ (fields : List FieldDef) (vals : List Value) (w : Value),
      alookup n ((fields.map FieldDef.name).zip vals) = some w →
      alookup n ((fields.map FieldDef.name).zip
        ((fields.zip vals).map fun p => if p.1.name = n then v else p.2)) = some v := by
  intro fields
  induction fields with
  | nil =>
      intro vals w hw
      simp [alookup] at hw
  | cons fd fs ih =>
      intro vals w hw
      cases vals with
      | nil => simp [alookup] at hw
      | cons x xs =>
          by_cases hfd : fd.name = n
          · simp only [List.map_cons, List.zip_cons_cons, List.map_cons, alookup,
              if_pos hfd]
          · simp only [List.map_cons, List.zip_cons_cons, alookup, if_neg hfd] at hw
            simp only [List.map_cons, List.zip_cons_cons, List.map_cons, alookup,
              if_neg hfd]
            exact ih xs w hw

/-- C6: flushing a single Added entity whose primary-key field holds its zero
value omits that field's column from the INSERT column list, executes the
`INSERT ... RETURNING` statement, writes the store-generated key into the
entity's primary-key field, and leaves the entry Unchanged holding a non-zero
primary key after the successful flush. -/
theorem insert_assigns_generated_key (e : Entity) (k : String) (o : ExecOracle)
    (dbc : List SqlStmt) (pkv : Value)
    (hpkf : e.model.pkField ≠ "") (hpkc : e.model.pkColumn ≠ "")
    (hzero : ∀ p ∈ e.model.fields.zip e.vals,
        p.1.name = e.model.pkField → isZeroValue p.2 = true)
    (hpkv : e.getField e.model.pkField = some pkv)
    (hb : o.beginFails = false) (hc : o.commitFails = false)
    (hfail : o.fails ((buildInsert e).sql ++ " RETURNING " ++ e.model.pkColumn)
        (buildInsert e).args = false)
    (hgk : isZeroValue (o.genKey ((buildInsert e).sql ++ " RETURNING " ++ e.model.pkColumn)
        (buildInsert e).args) = false) :
    (insertColsVals e.model.pkField (e.model.fields.zip e.vals)).1 =
      ((e.model.fields.zip e.vals).filter fun p => p.1.name ≠ e.model.pkField).map
        (fun p => p.1.column) ∧
    (saveChangesContext o ⟨dbc, []⟩ ⟨[(k, ⟨e, EntityState.added, []⟩)]⟩ false).error = none ∧
    (saveChangesContext o ⟨dbc, []⟩ ⟨[(k, ⟨e, EntityState.added, []⟩)]⟩ false).trace =
      [Ev.beginTx,
       Ev.exec true k ⟨(buildInsert e).sql ++ " RETURNING " ++ e.model.pkColumn,
         (buildInsert e).args⟩,
       Ev.commitTx, Ev.accept] ∧
    lookupEntry (saveChangesContext o ⟨dbc, []⟩ ⟨[(k, ⟨e, EntityState.added, []⟩)]⟩ false).ct k =
      some ⟨e.setField e.model.pkField
          (o.genKey ((buildInsert e).sql ++ " RETURNING " ++ e.model.pkColumn)
            (buildInsert e).args),
        EntityState.unchanged,
        captureOriginalValues (e.setField e.model.pkField
          (o.genKey ((buildInsert e).sql ++ " RETURNING " ++ e.model.pkColumn)
            (buildInsert e).args))⟩ ∧
    (e.setField e.model.pkField
        (o.genKey ((buildInsert e).sql ++ " RETURNING " ++ e.model.pkColumn)
          (buildInsert e).args)).getField e.model.pkField =
      some (o.genKey ((buildInsert e).sql ++ " RETURNING " ++ e.model.pkColumn)
        (buildInsert e).args) ∧
    isZeroValue (o.genKey ((buildInsert e).sql ++ " RETURNING " ++ e.model.pkColumn)
      (buildInsert e).args) = false := by
  have hpkcol : getPKColumnName e = e.model.pkColumn := by
    simp [getPKColumnName, hpkf]
  have hstep : stepInsert o ⟨dbc, []⟩ (k, ⟨e, EntityState.added, []⟩) =
      Except.ok ⟨1,
        ⟨dbc ++ [⟨(buildInsert e).sql ++ " RETURNING " ++ e.model.pkColumn,
          (buildInsert e).args⟩], []⟩,
        some (e.setField e.model.pkField
          (o.genKey ((buildInsert e).sql ++ " RETURNING " ++ e.model.pkColumn)
            (buildInsert e).args)),
        [Ev.exec true k ⟨(buildInsert e).sql ++ " RETURNING " ++ e.model.pkColumn,
          (buildInsert e).args⟩]⟩ := by
    simp [stepInsert, hpkcol, hpkf, hpkc, hfail]
  have hdet : (⟨[(k, ⟨e, EntityState.added, []⟩)]⟩ : ChangeTracker).detectChanges =
      ⟨[(k, ⟨e, EntityState.added, []⟩)]⟩ := by
    simp [ChangeTracker.detectChanges, EntityEntry.detectChanges]
  have hphases : runAllPhases o ⟨dbc, []⟩ (⟨[(k, ⟨e, EntityState.added, []⟩)]⟩ : ChangeTracker) =
      ⟨1, none,
        ⟨dbc ++ [⟨(buildInsert e).sql ++ " RETURNING " ++ e.model.pkColumn,
          (buildInsert e).args⟩], []⟩,
        ⟨[(k, ⟨e.setField e.model.pkField
            (o.genKey ((buildInsert e).sql ++ " RETURNING " ++ e.model.pkColumn)
              (buildInsert e).args),
          EntityState.added, []⟩)]⟩,
        [Ev.exec true k ⟨(buildInsert e).sql ++ " RETURNING " ++ e.model.pkColumn,
          (buildInsert e).args⟩]⟩ := by
    simp [runAllPhases, ChangeTracker.entriesByState, runPhase, hstep, updateEntityAt]
  have hnone : (runAllPhases o ⟨dbc, []⟩
      ((⟨[(k, ⟨e, EntityState.added, []⟩)]⟩ : ChangeTracker).detectChanges)).error = none := by
    rw [hdet, hphases]
  refine ⟨insertColsVals_omits_pk e.model.pkField hpkf (e.model.fields.zip e.vals) hzero ▸ rfl,
    ?_, ?_, ?_, ?_, hgk⟩
  · rw [saveChanges_owned_ok o ⟨dbc, []⟩ _ hb hc hnone]
  · rw [saveChanges_owned_ok o ⟨dbc, []⟩ _ hb hc hnone, hdet, hphases]
    rfl
  · rw [saveChanges_owned_ok o ⟨dbc, []⟩ _ hb hc hnone, hdet, hphases]
    simp [ChangeTracker.acceptAllChanges, EntityEntry.acceptChanges, lookupEntry]
  · exact alookup_zip_set e.model.pkField _ e.model.fields e.vals pkv hpkv

/-- Witness for `insert_assigns_generated_key`: flushing the new John with
the all-success oracle (generated key 42). -/
theorem insert_assigns_generated_key_instance :
    (johnEntity.getField johnEntity.model.pkField = some (.int 0) ∧
      johnEntity.model.pkField ≠ "" ∧
      allOkOracle.beginFails = false) ∧
    (saveChangesContext allOkOracle ⟨[], []⟩
        ⟨[("Patient:ptr:1", ⟨johnEntity, EntityState.added, []⟩)]⟩ false).error = none ∧
    (johnEntity.setField johnEntity.model.pkField
        (allOkOracle.genKey ((buildInsert johnEntity).sql ++ " RETURNING " ++
          johnEntity.model.pkColumn) (buildInsert johnEntity).args)).getField
      johnEntity.model.pkField =
      some (allOkOracle.genKey ((buildInsert johnEntity).sql ++ " RETURNING " ++
        johnEntity.model.pkColumn) (buildInsert johnEntity).args) :=
  ⟨⟨by decide, by decide, by decide⟩,
    (insert_assigns_generated_key johnEntity "Patient:ptr:1" allOkOracle [] (.int 0)
      (by decide) (by decide) (by decide) (by decide) (by decide) (by decide)
      (by decide) (by decide)).2.1,
    (insert_assigns_generated_key johnEntity "Patient:ptr:1" allOkOracle [] (.int 0)
      (by decide) (by decide) (by decide) (by decide) (by decide) (by decide)
      (by decide) (by decide)).2.2.2.2.1⟩

/-! Flush phase-order machinery. -/

/-- The identity-map keys of the statement-execution events of a trace, in
execution order. -/
def execKeys (tr : List Ev) : List String :=
  tr.filterMap fun ev => match ev with
    | .exec _ k _ => some k
    | _ => none

theorem execKeys_append (a b : List Ev) : execKeys (a ++ b) = execKeys a ++ execKeys b :=
  List.filterMap_append a b _

theorem stepDelete_keys (o : ExecOracle) (db : DbState) (it : String × EntityEntry)
    (r : StepOk) (h : stepDelete o db it = Except.ok r) :
    execKeys r.evs = [it.1] ∧ r.upd = none := by
  simp only [stepDelete] at h
  split at h
  · exact absurd h (by simp)
  · cases h
    exact ⟨rfl, rfl⟩

theorem stepInsert_keys (o : ExecOracle) (db : DbState) (it : String × EntityEntry)
    (r : StepOk) (h : stepInsert o db it = Except.ok r) :
    execKeys r.evs = [it.1] := by
  simp only [stepInsert] at h
  split at h
  · split at h
    · exact absurd h (by simp)
    · cases h
      rfl
  · split at h
    · exact absurd h (by simp)
    · cases h
      rfl

theorem stepUpdate_keys (o : ExecOracle) (db : DbState) (it : String × EntityEntry)
    (r : StepOk) (h : stepUpdate o db it = Except.ok r) :
    execKeys r.evs = (if it.2.getChangedProperties.length = 0 then [] else [it.1]) ∧
    r.upd = none := by
  simp only [stepUpdate] at h
  split at h
  next hc =>
    cases h
    exact ⟨by rw [if_pos hc]; rfl, rfl⟩
  next hc =>
    split at h
    · exact absurd h (by simp)
    · cases h
      exact ⟨by rw [if_neg hc]; rfl, rfl⟩

theorem runPhase_trace_keys (step : DbState → String × EntityEntry → Except String StepOk)
    (g : String × EntityEntry → List String)
    (hstep : ∀ db it r, step db it = Except.ok r → execKeys r.evs = g it) :
    ∀ (items : List (String × EntityEntry)) (db : DbState) (ct : ChangeTracker)
      (acc : Nat), (runPhase step items db ct acc).error = none →
      execKeys (runPhase step items db ct acc).trace = items.flatMap g := by
  intro items
  induction items with
  | nil =>
      intro db ct acc _
      simp [runPhase, execKeys]
  | cons item rest ih =>
      intro db ct acc herr
      simp only [runPhase] at herr ⊢
      cases h : step db item with
      | error msg =>
          rw [h] at herr
          simp at herr
      | ok r =>
          rw [h] at herr
          dsimp only at herr ⊢
          rw [List.flatMap_cons, execKeys_append, hstep db item r h, ih _ _ _ herr]

theorem runPhase_ct_fixed (step : DbState → String × EntityEntry → Except String StepOk)
    (hstep : ∀ db it r, step db it = Except.ok r → r.upd = none) :
    ∀ (items : List (String × EntityEntry)) (db : DbState) (ct : ChangeTracker)
      (acc : Nat), (runPhase step items db ct acc).ct = ct := by
  intro items
  induction items with
  | nil => intro db ct acc; rfl
  | cons item rest ih =>
      intro db ct acc
      simp only [runPhase]
      cases h : step db item with
      | error msg => rfl
      | ok r =>
          dsimp only
          rw [hstep db item r h]
          exact ih _ _ _

theorem filter_state_map_update (k : String) (ent : Entity) (s : EntityState)
    (hs : s ≠ EntityState.added) :
    ∀ l : List (String × EntityEntry),
      (∀ p ∈ l, p.1 = k → p.2.state = EntityState.added) →
      (l.map fun p => if p.1 = k
          then (p.1, (⟨ent, p.2.state, p.2.originalValues⟩ : EntityEntry)) else p).filter
        (fun p => p.2.state = s) = l.filter fun p => p.2.state = s := by
  intro l
  induction l with
  | nil => intro _; rfl
  | cons p rest ih =>
      intro h
      have htail := ih fun q hq => h q (List.mem_cons_of_mem p hq)
      by_cases hp : p.1 = k
      · have hst : p.2.state = EntityState.added := h p (List.mem_cons_self p rest) hp
        have hcond : ¬(p.2.state = s) := by
          rw [hst]
          exact fun h2 => hs h2.symm
        simp only [List.map_cons, if_pos hp, List.filter_cons]
        rw [if_neg (by simpa using hcond), if_neg (by simpa using hcond)]
        exact htail
      · simp only [List.map_cons, if_neg hp, List.filter_cons, htail]

theorem updateEntityAt_byState (ct : ChangeTracker) (k : String) (ent : Entity)
    (s : EntityState) (hs : s ≠ EntityState.added)
    (hk : ∀ p ∈ ct.entries, p.1 = k → p.2.state = EntityState.added) :
    (updateEntityAt ct k ent).entriesByState s = ct.entriesByState s :=
  filter_state_map_update k ent s hs ct.entries hk

theorem mem_map_update (k : String) (ent : Entity) (l : List (String × EntityEntry)) :
    ∀ p ∈ (l.map fun p => if p.1 = k
        then (p.1, (⟨ent, p.2.state, p.2.originalValues⟩ : EntityEntry)) else p),
      ∃ q ∈ l, p.1 = q.1 ∧ p.2.state = q.2.state := by
  intro p hp
  rcases List.mem_map.mp hp with ⟨q, hq, hfq⟩
  by_cases hqk : q.1 = k
  · rw [if_pos hqk] at hfq
    exact ⟨q, hq, by rw [← hfq], by rw [← hfq]⟩
  · rw [if_neg hqk] at hfq
    exact ⟨q, hq, by rw [← hfq], by rw [← hfq]⟩

theorem runPhase_insert_byState (o : ExecOracle) (s : EntityState)
    (hs : s ≠ EntityState.added) :
    ∀ (items : List (String × EntityEntry)) (db : DbState) (ct : ChangeTracker)
      (acc : Nat),
      (∀ it ∈ items, ∀ p ∈ ct.entries, p.1 = it.1 → p.2.state = EntityState.added) →
      (runPhase (stepInsert o) items db ct acc).ct.entriesByState s =
        ct.entriesByState s := by
  intro items
  induction items with
  | nil => intro db ct acc _; rfl
  | cons item rest ih =>
      intro db ct acc hinv
      simp only [runPhase]
      cases h : stepInsert o db item with
      | error msg => rfl
      | ok r =>
          dsimp only
          cases hupd : r.upd with
          | none =>
              exact ih _ _ _ fun it hit p hp => hinv it (List.mem_cons_of_mem item hit) p hp
          | some ent =>
              have hk : ∀ p ∈ ct.entries, p.1 = item.1 → p.2.state = EntityState.added :=
                hinv item (List.mem_cons_self item rest)
              have hinv2 : ∀ it ∈ rest, ∀ p ∈ (updateEntityAt ct item.1 ent).entries,
                  p.1 = it.1 → p.2.state = EntityState.added := by
                intro it hit p hp hpk
                rcases mem_map_update item.1 ent ct.entries p hp with ⟨q, hq, hq1, hq2⟩
                rw [hq2]
                exact hinv it (List.mem_cons_of_mem item hit) q hq (by rw [← hq1, hpk])
              rw [ih _ _ _ hinv2]
              exact updateEntityAt_byState ct item.1 ent s hs hk

theorem flatMap_key_singleton (l : List (String × EntityEntry)) :
    (l.flatMap fun it => [it.1]) = l.map Prod.fst := by
  induction l with
  | nil => rfl
  | cons it rest ih => simp [List.flatMap_cons, ih]

theorem flatMap_update_keys (l : List (String × EntityEntry)) :
    (l.flatMap fun it => if it.2.getChangedProperties.length = 0 then [] else [it.1]) =
      (l.filter fun it => ¬ it.2.getChangedProperties.length = 0).map Prod.fst := by
  induction l with
  | nil => rfl
  | cons it rest ih =>
      by_cases hc : it.2.getChangedProperties.length = 0
      · simp only [List.flatMap_cons, List.filter_cons, if_pos hc]
        rw [if_neg (by simpa using hc), List.nil_append]
        exact ih
      · simp only [List.flatMap_cons, List.filter_cons, if_neg hc]
        rw [if_pos (by simpa using hc), List.map_cons, List.singleton_append, ih]

theorem hasChanges_unchanged_len (en : EntityEntry)
    (hst : en.state = EntityState.unchanged) (hc : en.hasChanges = true) :
    ¬ en.getChangedProperties.length = 0 := by
  simp only [EntityEntry.hasChanges, hst] at hc
  rw [if_neg (by simp)] at hc
  simp only [decide_eq_true_eq] at hc
  omega

theorem keys_filter_nodup (l : List (String × EntityEntry))
    (hnd : (l.map Prod.fst).Nodup) (p : String × EntityEntry → Bool) :
    ((l.filter p).map Prod.fst).Nodup :=
  List.Nodup.sublist (List.Sublist.map Prod.fst (List.filter_sublist l)) hnd

theorem keys_filter_disjoint (l : List (String × EntityEntry))
    (hnd : (l.map Prod.fst).Nodup) (p q : String × EntityEntry → Bool)
    (hpq : ∀ x ∈ l, ¬(p x = true ∧ q x = true)) :
    List.Disjoint ((l.filter p).map Prod.fst) ((l.filter q).map Prod.fst) := by
  intro k hkp hkq
  rcases List.mem_map.mp hkp with ⟨a, ha, hak⟩
  rcases List.mem_map.mp hkq with ⟨b, hb, hbk⟩
  have hal := List.mem_of_mem_filter ha
  have hbl := List.mem_of_mem_filter hb
  have hab : a = b :=
    List.inj_on_of_nodup_map hnd hal hbl (by rw [hak, hbk])
  have hpa := List.of_mem_filter ha
  have hqb := List.of_mem_filter hb
  rw [← hab] at hqb
  exact hpq a hal ⟨hpa, hqb⟩

/-- The concatenated keys of the four phase groups contain each tracked key
at most once (states partition the map and the map has one entry per key). -/
theorem group_keys_nodup (ct1 : ChangeTracker)
    (hnd : (ct1.entries.map Prod.fst).Nodup) :
    ((ct1.entriesByState EntityState.deleted).map Prod.fst ++
     (ct1.entriesByState EntityState.added).map Prod.fst ++
     ((ct1.entriesByState EntityState.modified).filter
        (fun p => ¬ p.2.getChangedProperties.length = 0)).map Prod.fst ++
     ((ct1.entriesByState EntityState.unchanged).filter
        (fun p => p.2.hasChanges)).map Prod.fst).Nodup := by
  have g3 : (ct1.entriesByState EntityState.modified).filter
      (fun p => ¬ p.2.getChangedProperties.length = 0) =
      ct1.entries.filter (fun p => decide (¬ p.2.getChangedProperties.length = 0) &&
        decide (p.2.state = EntityState.modified)) :=
    List.filter_filter _ ct1.entries
  have g4 : (ct1.entriesByState EntityState.unchanged).filter
      (fun p => p.2.hasChanges) =
      ct1.entries.filter (fun p => p.2.hasChanges &&
        decide (p.2.state = EntityState.unchanged)) :=
    List.filter_filter _ ct1.entries
  have e12 : ∀ x ∈ ct1.entries,
      ¬((decide (x.2.state = EntityState.deleted) : Bool) = true ∧
        (decide (x.2.state = EntityState.added) : Bool) = true) := by
    intro x _ hx
    simp only [decide_eq_true_eq] at hx
    exact (by decide : EntityState.deleted ≠ EntityState.added) (hx.1.symm.trans hx.2)
  have e13 : ∀ x ∈ ct1.entries,
      ¬((decide (x.2.state = EntityState.deleted) : Bool) = true ∧
        (decide (¬ x.2.getChangedProperties.length = 0) &&
          decide (x.2.state = EntityState.modified)) = true) := by
    intro x _ hx
    simp only [decide_eq_true_eq, Bool.and_eq_true] at hx
    exact (by decide : EntityState.deleted ≠ EntityState.modified)
      (hx.1.symm.trans hx.2.2)
  have e14 : ∀ x ∈ ct1.entries,
      ¬((decide (x.2.state = EntityState.deleted) : Bool) = true ∧
        (x.2.hasChanges && decide (x.2.state = EntityState.unchanged)) = true) := by
    intro x _ hx
    simp only [decide_eq_true_eq, Bool.and_eq_true] at hx
    exact (by decide : EntityState.deleted ≠ EntityState.unchanged)
      (hx.1.symm.trans hx.2.2)
  have e23 : ∀ x ∈ ct1.entries,
      ¬((decide (x.2.state = EntityState.added) : Bool) = true ∧
        (decide (¬ x.2.getChangedProperties.length = 0) &&
          decide (x.2.state = EntityState.modified)) = true) := by
    intro x _ hx
    simp only [decide_eq_true_eq, Bool.and_eq_true] at hx
    exact (by decide : EntityState.added ≠ EntityState.modified)
      (hx.1.symm.trans hx.2.2)
  have e24 : ∀ x ∈ ct1.entries,
      ¬((decide (x.2.state = EntityState.added) : Bool) = true ∧
        (x.2.hasChanges && decide (x.2.state = EntityState.unchanged)) = true) := by
    intro x _ hx
    simp only [decide_eq_true_eq, Bool.and_eq_true] at hx
    exact (by decide : EntityState.added ≠ EntityState.unchanged)
      (hx.1.symm.trans hx.2.2)
  have e34 : ∀ x ∈ ct1.entries,
      ¬((decide (¬ x.2.getChangedProperties.length = 0) &&
          decide (x.2.state = EntityState.modified)) = true ∧
        (x.2.hasChanges && decide (x.2.state = EntityState.unchanged)) = true) := by
    intro x _ hx
    simp only [decide_eq_true_eq, Bool.and_eq_true] at hx
    exact (by decide : EntityState.modified ≠ EntityState.unchanged)
      (hx.1.2.symm.trans hx.2.2)
  rw [g3, g4]
  simp only [ChangeTracker.entriesByState]
  refine List.Nodup.append (List.Nodup.append (List.Nodup.append
      (keys_filter_nodup ct1.entries hnd
        (fun p => decide (p.2.state = EntityState.deleted)))
      (keys_filter_nodup ct1.entries hnd
        (fun p => decide (p.2.state = EntityState.added)))
      (keys_filter_disjoint ct1.entries hnd _ _ e12))
      (keys_filter_nodup ct1.entries hnd
        (fun p => decide (¬ p.2.getChangedProperties.length = 0) &&
          decide (p.2.state = EntityState.modified))) ?_)
      (keys_filter_nodup ct1.entries hnd
        (fun p => p.2.hasChanges && decide (p.2.state = EntityState.unchanged))) ?_
  · rw [List.disjoint_append_left]
    exact ⟨keys_filter_disjoint ct1.entries hnd _ _ e13,
      keys_filter_disjoint ct1.entries hnd _ _ e23⟩
  · rw [List.disjoint_append_left, List.disjoint_append_left]
    exact ⟨⟨keys_filter_disjoint ct1.entries hnd _ _ e14,
      keys_filter_disjoint ct1.entries hnd _ _ e24⟩,
      keys_filter_disjoint ct1.entries hnd _ _ e34⟩

/-- A fully successful statement pass executes exactly: one DELETE per
Deleted entry, then one INSERT per Added entry, then one UPDATE per Modified
entry with a non-empty diff, then one UPDATE per dirty Unchanged entry — in
that order, keyed by the entries' identity-map keys. -/
theorem runAllPhases_keys (o : ExecOracle) (db : DbState) (ct1 : ChangeTracker)
    (hnd : (ct1.entries.map Prod.fst).Nodup)
    (hok : (runAllPhases o db ct1).error = none) :
    execKeys (runAllPhases o db ct1).trace =
      (ct1.entriesByState EntityState.deleted).map Prod.fst ++
      (ct1.entriesByState EntityState.added).map Prod.fst ++
      ((ct1.entriesByState EntityState.modified).filter
        (fun p => ¬ p.2.getChangedProperties.length = 0)).map Prod.fst ++
      ((ct1.entriesByState EntityState.unchanged).filter
        (fun p => p.2.hasChanges)).map Prod.fst := by
  have hinv : ∀ it ∈ ct1.entriesByState EntityState.added, ∀ p ∈ ct1.entries,
      p.1 = it.1 → p.2.state = EntityState.added := by
    intro it hit p hp hpk
    have hitl : it ∈ ct1.entries := List.mem_of_mem_filter hit
    have hadded : it.2.state = EntityState.added := by
      simpa using List.of_mem_filter hit
    have hpeq : p = it := List.inj_on_of_nodup_map hnd hp hitl hpk
    rw [hpeq]
    exact hadded
  have hU : ((ct1.entriesByState EntityState.unchanged).filter
      (fun p => p.2.hasChanges)).filter
        (fun it => ¬ it.2.getChangedProperties.length = 0) =
      (ct1.entriesByState EntityState.unchanged).filter (fun p => p.2.hasChanges) := by
    apply List.filter_eq_self.mpr
    intro a ha
    have ha1 := List.of_mem_filter ha
    have ha2 := List.mem_of_mem_filter ha
    have ha3 := List.of_mem_filter ha2
    simp only [decide_eq_true_eq] at ha3 ⊢
    exact hasChanges_unchanged_len a.2 ha3 ha1
  simp only [runAllPhases] at hok ⊢
  cases h1 : (runPhase (stepDelete o) (ct1.entriesByState EntityState.deleted)
      db ct1 0).error with
  | some msg =>
      rw [h1] at hok
      simp at hok
  | none =>
      rw [h1] at hok
      dsimp only at hok ⊢
      rw [runPhase_ct_fixed (stepDelete o)
        (fun db it r h => (stepDelete_keys o db it r h).2) _ _ _ _] at hok ⊢
      cases h2 : (runPhase (stepInsert o) (ct1.entriesByState EntityState.added)
          (runPhase (stepDelete o) (ct1.entriesByState EntityState.deleted) db ct1 0).db
          ct1
          (runPhase (stepDelete o) (ct1.entriesByState EntityState.deleted) db ct1 0).affected).error with
      | some msg =>
          rw [h2] at hok
          simp at hok
      | none =>
          rw [h2] at hok
          dsimp only at hok ⊢
          rw [runPhase_insert_byState o EntityState.modified (by decide) _ _ _ _ hinv]
            at hok ⊢
          cases h3 : (runPhase (stepUpdate o) (ct1.entriesByState EntityState.modified)
              (runPhase (stepInsert o) (ct1.entriesByState EntityState.added)
                (runPhase (stepDelete o) (ct1.entriesByState EntityState.deleted) db ct1 0).db
                ct1
                (runPhase (stepDelete o) (ct1.entriesByState EntityState.deleted) db ct1 0).affected).db
              (runPhase (stepInsert o) (ct1.entriesByState EntityState.added)
                (runPhase (stepDelete o) (ct1.entriesByState EntityState.deleted) db ct1 0).db
                ct1
                (runPhase (stepDelete o) (ct1.entriesByState EntityState.deleted) db ct1 0).affected).ct
              (runPhase (stepInsert o) (ct1.entriesByState EntityState.added)
                (runPhase (stepDelete o) (ct1.entriesByState EntityState.deleted) db ct1 0).db
                ct1
                (runPhase (stepDelete o) (ct1.entriesByState EntityState.deleted) db ct1 0).affected).affected).error with
          | some msg =>
              rw [h3] at hok
              simp at hok
          | none =>
              rw [h3] at hok
              dsimp only at hok ⊢
              rw [runPhase_ct_fixed (stepUpdate o)
                (fun db it r h => (stepUpdate_keys o db it r h).2) _ _ _ _] at hok ⊢
              rw [runPhase_insert_byState o EntityState.unchanged (by decide) _ _ _ _ hinv]
                at hok ⊢
              rw [execKeys_append, execKeys_append, execKeys_append]
              rw [runPhase_trace_keys (stepDelete o) (fun it => [it.1])
                  (fun db it r h => (stepDelete_keys o db it r h).1) _ _ _ _ h1,
                runPhase_trace_keys (stepInsert o) (fun it => [it.1])
                  (fun db it r h => stepInsert_keys o db it r h) _ _ _ _ h2,
                runPhase_trace_keys (stepUpdate o)
                  (fun it => if it.2.getChangedProperties.length = 0 then [] else [it.1])
                  (fun db it r h => (stepUpdate_keys o db it r h).1) _ _ _ _ h3,
                runPhase_trace_keys (stepUpdate o)
                  (fun it => if it.2.getChangedProperties.length = 0 then [] else [it.1])
                  (fun db it r h => (stepUpdate_keys o db it r h).1) _ _ _ _ hok]
              rw [flatMap_key_singleton, flatMap_key_singleton, flatMap_update_keys,
                flatMap_update_keys, hU]

/-- `DetectChanges` sweeps entries in place: the key list is untouched. -/
theorem detectChanges_keys (ct : ChangeTracker) :
    ct.detectChanges.entries.map Prod.fst = ct.entries.map Prod.fst := by
  show (ct.entries.map fun p => (p.1, p.2.detectChanges)).map Prod.fst = _
  rw [List.map_map]
  rfl

/-- C4: every flush runs `DetectChanges` first, and a fully successful
flush's statement trace is keyed, in order, by: the Deleted entries, then
the Added entries, then the Modified entries with a non-empty diff, then the
Unchanged entries with detected changes — all groups read off the
detect-changes'd tracker — and no key occurs twice, so no entry is acted on
twice, in either transaction mode. -/
theorem flush_processes_in_state_order (o : ExecOracle) (db : DbState)
    (ct : ChangeTracker) (ts : Bool)
    (hnd : (ct.entries.map Prod.fst).Nodup)
    (herr : (saveChangesContext o db ct ts).error = none) :
    execKeys (saveChangesContext o db ct ts).trace =
      (ct.detectChanges.entriesByState EntityState.deleted).map Prod.fst ++
      (ct.detectChanges.entriesByState EntityState.added).map Prod.fst ++
      ((ct.detectChanges.entriesByState EntityState.modified).filter
        (fun p => ¬ p.2.getChangedProperties.length = 0)).map Prod.fst ++
      ((ct.detectChanges.entriesByState EntityState.unchanged).filter
        (fun p => p.2.hasChanges)).map Prod.fst ∧
    (execKeys (saveChangesContext o db ct ts).trace).Nodup := by
  have hnd1 : (ct.detectChanges.entries.map Prod.fst).Nodup := by
    rw [detectChanges_keys]
    exact hnd
  have hmain : (runAllPhases o db ct.detectChanges).error = none ∧
      execKeys (saveChangesContext o db ct ts).trace =
        execKeys (runAllPhases o db ct.detectChanges).trace := by
    cases ts with
    | false =>
        cases hb : o.beginFails with
        | true =>
            rw [saveChanges_begin_fail o db ct hb] at herr
            simp at herr
        | false =>
            cases hpe : (runAllPhases o db ct.detectChanges).error with
            | some msg =>
                rw [saveChanges_phase_err o db ct false msg (by simp [hb]) hpe] at herr
                simp [finishErr] at herr
            | none =>
                cases hc : o.commitFails with
                | true =>
                    rw [saveChanges_owned_commit_fail o db ct hb hc hpe] at herr
                    simp at herr
                | false =>
                    refine ⟨rfl, ?_⟩
                    rw [saveChanges_owned_ok o db ct hb hc hpe]
                    dsimp only
                    rw [execKeys_append, execKeys_append]
                    simp [execKeys]
    | true =>
        cases hpe : (runAllPhases o db ct.detectChanges).error with
        | some msg =>
            rw [saveChanges_phase_err o db ct true msg (by simp) hpe] at herr
            simp [finishErr] at herr
        | none =>
            refine ⟨rfl, ?_⟩
            rw [saveChanges_supplied_ok o db ct hpe]
            dsimp only
            rw [execKeys_append]
            simp [execKeys]
  obtain ⟨hok, htr⟩ := hmain
  rw [htr, runAllPhases_keys o db ct.detectChanges hnd1 hok]
  exact ⟨rfl, group_keys_nodup ct.detectChanges hnd1⟩

/-- Witness for `flush_processes_in_state_order`: the all-success flush over
the John/Mary fixture has duplicate-free keys and succeeds. -/
theorem flush_processes_in_state_order_instance :
    ((flushFixtureCt.entries.map Prod.fst).Nodup ∧
      (saveChangesContext allOkOracle ⟨[], []⟩ flushFixtureCt false).error = none) ∧
    (execKeys (saveChangesContext allOkOracle ⟨[], []⟩ flushFixtureCt false).trace).Nodup :=
  ⟨⟨by decide, by decide⟩,
    (flush_processes_in_state_order allOkOracle ⟨[], []⟩ flushFixtureCt false
      (by decide) (by decide)).2⟩

end Apolon
